import Mathlib

/-!
# SimpleChat: ring relay engine

A shallow embedding of `src/message.cpp`, `src/networkmanager.cpp` and
`src/simplechat.cpp`, followed by theorems about the embedded code.

Conventions of the embedding

* `QString` is a list of UTF-16 code units, `QByteArray` a list of bytes.
* C++ `int` fields are `Int`; the one place where the code does arithmetic on
  an `int` (`nextSequenceNumber++`) wraps to 32 bits through `wrapInt32`.
* `QVariantMap` and `socketBuffers` are association lists with `QMap`'s
  insert-or-overwrite behaviour.
* Qt signals are recorded in the order they are emitted (`emitted`), bytes
  written to the neighbor socket are recorded in `QTcpSocket.written`.
* `QDataStream`'s serialisation of a `QVariantMap` is library code and is a
  parameter (`Codec`); `qtCodec` is one concrete instance.
* What the environment decides is an argument of the operation it concerns:
  the bytes `readAll()` returns, the address `new QTcpSocket` returns, the
  result of `listen`. `Event` lists the calls and Qt signals that reach a
  manager, `NetworkManager.step` is the manager after one of them.
-/

namespace RingChat

/-! ## Qt value types -/

/-- One UTF-16 code unit. -/
abbrev QChar := Fin 65536

/-- A `QString`: a sequence of UTF-16 code units. -/
abbrev QString := List QChar

/-- One byte. -/
abbrev Byte := Fin 256

/-- A `QByteArray`. -/
abbrev QByteArray := List Byte

/-- The UTF-16 code units of one Unicode scalar value. -/
def utf16 (c : Char) : List QChar :=
  let n := c.toNat
  if n < 65536 then [⟨n % 65536, Nat.mod_lt _ (by decide)⟩]
  else
    let v := n - 65536
    [⟨(55296 + v / 1024 % 1024) % 65536, Nat.mod_lt _ (by decide)⟩,
     ⟨(56320 + v % 1024) % 65536, Nat.mod_lt _ (by decide)⟩]

/-- The `QString` built from a string literal. -/
def qstr (s : String) : QString :=
  s.toList.flatMap utf16

/-- Whitespace test `QChar::isSpace`: the ASCII characters tab, newline,
vertical tab, form feed, carriage return and space, then U+0085, U+00A0 and
the Unicode separator categories Zs, Zl, Zp. -/
def QChar.isSpace (c : QChar) : Bool :=
  let u := c.val
  u == 32 || (9 ≤ u && u ≤ 13) || u == 133 || u == 160 || u == 5760 ||
    (8192 ≤ u && u ≤ 8202) || u == 8232 || u == 8233 || u == 8239 ||
    u == 8287 || u == 12288

/-- `QString::isEmpty`. -/
def QString.isEmpty (s : QString) : Bool :=
  s.length == 0

/-- `QString::trimmed`: whitespace removed from the start and from the end. -/
def QString.trimmed (s : QString) : QString :=
  ((s.dropWhile QChar.isSpace).reverse.dropWhile QChar.isSpace).reverse

/-- The value of a C++ `int` after an arithmetic result `x` is stored in it
(two's complement, 32 bits). -/
def wrapInt32 (x : Int) : Int :=
  (x + 2147483648) % 4294967296 - 2147483648

/-! ## QVariant and QVariantMap -/

/-- The `QVariant` kinds the program stores or can meet when a key is
absent: invalid (default constructed), `int`, `QString`. -/
inductive QVariant where
  | invalid : QVariant
  | int (n : Int) : QVariant
  | string (s : QString) : QVariant
  deriving DecidableEq, Repr

/-- Decimal digits of a natural number as code units, most significant
first. -/
def natDigits (n : Nat) : QString :=
  (Nat.toDigits 10 n).flatMap utf16

/-- Value of a sequence of ASCII decimal digits, `none` when a code unit is
not a digit or the sequence is empty. -/
def parseDigits (s : QString) : Option Nat :=
  if s.isEmpty then none
  else s.foldl (fun acc c =>
    match acc with
    | none => none
    | some a => if 48 ≤ c.val ∧ c.val ≤ 57 then some (10 * a + (c.val - 48)) else none)
    (some 0)

/-- `QString::toInt`: optional surrounding whitespace, optional sign, decimal
digits; `0` when the text is not a number or does not fit an `int`. -/
def QString.toInt (s : QString) : Int :=
  let t := s.trimmed
  let signed : Option Int :=
    match t with
    | [] => none
    | c :: rest =>
      if c.val = 45 then (parseDigits rest).map (fun n => - (n : Int))
      else if c.val = 43 then (parseDigits rest).map (fun n => (n : Int))
      else (parseDigits t).map (fun n => (n : Int))
  match signed with
  | none => 0
  | some v => if -2147483648 ≤ v ∧ v ≤ 2147483647 then v else 0

/-- `QVariant::toString`. -/
def QVariant.toString : QVariant → QString
  | .invalid => []
  | .int n => if n < 0 then qstr "-" ++ natDigits n.natAbs else natDigits n.natAbs
  | .string s => s

/-- `QVariant::toInt`. -/
def QVariant.toInt : QVariant → Int
  | .invalid => 0
  | .int n => n
  | .string s => s.toInt

/-- A `QMap`: association list, at most one entry per key when built with
`QMap.insert`. -/
abbrev QMap (κ : Type) (α : Type) := List (κ × α)

/-- `QMap::insert` and `operator[]` used as an assignment target: overwrite
the entry of `k`, or add one. -/
def QMap.insert {κ α : Type} [DecidableEq κ] : QMap κ α → κ → α → QMap κ α
  | [], k, v => [(k, v)]
  | (k', v') :: rest, k, v =>
    if k' = k then (k, v) :: rest else (k', v') :: QMap.insert rest k v

/-- Lookup, `none` when the key is absent. -/
def QMap.find {κ α : Type} [DecidableEq κ] : QMap κ α → κ → Option α
  | [], _ => none
  | (k', v') :: rest, k => if k' = k then some v' else QMap.find rest k

/-- `QMap::value(key)`: the stored value, or a default-constructed one. -/
def QMap.value {κ α : Type} [DecidableEq κ] (m : QMap κ α) (k : κ) (dflt : α) : α :=
  (QMap.find m k).getD dflt

/-- `QMap::remove`. -/
def QMap.remove {κ α : Type} [DecidableEq κ] (m : QMap κ α) (k : κ) : QMap κ α :=
  m.filter (fun e => decide (e.1 ≠ k))

/-- A `QVariantMap`. -/
abbrev QVariantMap := QMap QString QVariant

/-! ## Message (`message.h`, `message.cpp`) -/

/-- The class `Message`; `Message.mk` is the four-argument constructor. -/
structure Message where
  chatText : QString
  origin : QString
  destination : QString
  sequenceNumber : Int
  deriving DecidableEq, Repr

namespace Message

/-- The default constructor `Message::Message()`. -/
def default : Message :=
  { chatText := [], origin := [], destination := [], sequenceNumber := 0 }

/-- The function `Message::setSequenceNumber`. -/
def setSequenceNumber (m : Message) (seq : Int) : Message :=
  { m with sequenceNumber := seq }

/-- The function `Message::fromVariantMap`. -/
def fromVariantMap (map : QVariantMap) : Message :=
  let msg := Message.default
  let msg := { msg with chatText := (QMap.value map (qstr "ChatText") QVariant.invalid).toString }
  let msg := { msg with origin := (QMap.value map (qstr "Origin") QVariant.invalid).toString }
  let msg := { msg with destination := (QMap.value map (qstr "Destination") QVariant.invalid).toString }
  let msg := { msg with sequenceNumber := (QMap.value map (qstr "SequenceNumber") QVariant.invalid).toInt }
  msg

/-- The function `Message::toVariantMap`. -/
def toVariantMap (m : Message) : QVariantMap :=
  let map : QVariantMap := []
  let map := QMap.insert map (qstr "ChatText") (QVariant.string m.chatText)
  let map := QMap.insert map (qstr "Origin") (QVariant.string m.origin)
  let map := QMap.insert map (qstr "Destination") (QVariant.string m.destination)
  let map := QMap.insert map (qstr "SequenceNumber") (QVariant.int m.sequenceNumber)
  map

/-- The function `Message::isValid`. -/
def isValid (m : Message) : Bool :=
  !m.chatText.isEmpty && !m.origin.isEmpty && !m.destination.isEmpty &&
    decide (m.sequenceNumber ≥ 1)

end Message

/-! ## Byte streams (`QDataStream`) -/

/-- `QDataStream << quint32`: four bytes, most significant first. -/
def writeUInt32 (n : Nat) : QByteArray :=
  [⟨n / 16777216 % 256, Nat.mod_lt _ (by decide)⟩,
   ⟨n / 65536 % 256, Nat.mod_lt _ (by decide)⟩,
   ⟨n / 256 % 256, Nat.mod_lt _ (by decide)⟩,
   ⟨n % 256, Nat.mod_lt _ (by decide)⟩]

/-- `QDataStream >> quint32` on a stream opened at the start of `b`: the
first four bytes, most significant first (`0` when fewer are present). -/
def readUInt32 (b : QByteArray) : Nat :=
  match b with
  | b0 :: b1 :: b2 :: b3 :: _ => b0.val * 16777216 + b1.val * 65536 + b2.val * 256 + b3.val
  | _ => 0

/-- The two `QDataStream` operations on a `QVariantMap` that the program
calls and the repository does not contain: `stream << map` producing the
bytes, `stream >> map` reading a map from bytes (total: an unreadable
stream still leaves some map in the variable). -/
structure Codec where
  write : QVariantMap → QByteArray
  read : QByteArray → QVariantMap

/-- `operator<<(QDataStream&, const Message&)` on an empty write-only
stream: the bytes produced. -/
def Message.writeTo (c : Codec) (message : Message) : QByteArray :=
  let map := message.toVariantMap
  c.write map

/-- `operator>>(QDataStream&, Message&)` on a stream over `data`. -/
def Message.readFrom (c : Codec) (data : QByteArray) : Message :=
  let map := c.read data
  Message.fromVariantMap map

/-! ## NetworkManager (`networkmanager.h`, `networkmanager.cpp`) -/

/-- `QAbstractSocket::SocketState`. -/
inductive SocketState where
  | UnconnectedState
  | HostLookupState
  | ConnectingState
  | ConnectedState
  | BoundState
  | ListeningState
  | ClosingState
  deriving DecidableEq, Repr

/-- A `QTcpSocket` as the manager sees it: its identity (the pointer), its
state, and the bytes written to it so far. -/
structure QTcpSocket where
  ptr : Nat
  state : SocketState
  written : QByteArray
  deriving DecidableEq, Repr

/-- The signals of `NetworkManager`. -/
inductive Signal where
  | messageReceived (message : Message)
  | connectionEstablished
  | connectionLost
  deriving DecidableEq, Repr

/-- The member variables of `NetworkManager` that the modelled operations
use, the signals emitted so far (`emitted`, oldest first), the interval of
the single-shot `retryTimer` when it is running, and the outstanding
`QTimer::singleShot` connection requests (delay, port). `neighborSocket =
none` is the null pointer. `nextSequenceNumber` is the `int` counter that
the constructor initialises and `sendMessage` increments. `pendingMessages`
and `expectedSequenceNumbers` are the two maps the header declares under
"Sequence ordering mechanism". -/
structure NetworkManager where
  neighborSocket : Option QTcpSocket
  socketBuffers : QMap Nat QByteArray
  retryTimer : Option Nat
  nodeId : QString
  serverPort : Int
  neighborHost : QString
  neighborPort : Int
  peerPorts : QMap QString Int
  ringPorts : List Int
  currentPortIndex : Int
  nextSequenceNumber : Int
  messageQueue : List Message
  pendingMessages : QMap QString (QMap Int Message)
  expectedSequenceNumbers : QMap QString Int
  emitted : List Signal
  singleShots : List (Nat × Int)
  deriving DecidableEq, Repr

namespace NetworkManager

/-- The constructor `NetworkManager::NetworkManager`. -/
def new : NetworkManager :=
  { neighborSocket := none
    socketBuffers := []
    retryTimer := none
    nodeId := []
    serverPort := 0
    neighborHost := []
    neighborPort := 0
    peerPorts := []
    ringPorts := []
    currentPortIndex := -1
    nextSequenceNumber := 1
    messageQueue := []
    pendingMessages := []
    expectedSequenceNumbers := []
    emitted := []
    singleShots := [] }

/-- The function `NetworkManager::setNodeId`. -/
def setNodeId (nm : NetworkManager) (nodeId : QString) : NetworkManager :=
  { nm with nodeId := nodeId }

/-- The function `NetworkManager::deliverMessage`. -/
def deliverMessage (nm : NetworkManager) (message : Message) : NetworkManager :=
  { nm with emitted := nm.emitted ++ [Signal.messageReceived message] }

/-- The function `NetworkManager::forwardMessage`. The `quint32` cast of
`data.size()` is the `% 4294967296`. -/
def forwardMessage (c : Codec) (nm : NetworkManager) (message : Message) : NetworkManager :=
  match nm.neighborSocket with
  | none => { nm with messageQueue := nm.messageQueue ++ [message] }
  | some socket =>
    if socket.state ≠ SocketState.ConnectedState then
      { nm with messageQueue := nm.messageQueue ++ [message] }
    else
      let data := message.writeTo c
      let sizeData := writeUInt32 (data.length % 4294967296)
      let socket := { socket with written := socket.written ++ sizeData }
      let socket := { socket with written := socket.written ++ data }
      { nm with neighborSocket := some socket }

/-- The function `NetworkManager::sendMessage`. -/
def sendMessage (c : Codec) (nm : NetworkManager) (message : Message) : NetworkManager :=
  if !message.isValid then nm
  else
    let msgToSend := message
    let msgToSend := msgToSend.setSequenceNumber nm.nextSequenceNumber
    let nm := { nm with nextSequenceNumber := wrapInt32 (nm.nextSequenceNumber + 1) }
    if msgToSend.destination = nm.nodeId then deliverMessage nm msgToSend
    else forwardMessage c nm msgToSend

/-- The `while` loop of `NetworkManager::processReceivedData` on the
connection buffer `buffer`, at most `fuel` iterations; it returns the manager
and the buffer as the loop leaves them. `sizeof(quint32) + messageSize` is
computed in `size_t` (64 bits), so it does not wrap. -/
def processLoop (c : Codec) : Nat → NetworkManager → QByteArray → NetworkManager × QByteArray
  | 0, nm, buffer => (nm, buffer)
  | fuel + 1, nm, buffer =>
    if buffer.length ≥ 4 then
      let messageSize := readUInt32 buffer
      if buffer.length < 4 + messageSize then (nm, buffer)
      else
        let buffer := buffer.drop 4
        let messageData := buffer.take messageSize
        let buffer := buffer.drop messageSize
        let message := Message.readFrom c messageData
        if message.isValid then
          if message.destination = nm.nodeId then
            processLoop c fuel (deliverMessage nm message) buffer
          else
            processLoop c fuel (forwardMessage c nm message) buffer
        else processLoop c fuel nm buffer
    else (nm, buffer)

/-- The function `NetworkManager::processReceivedData` for the socket
`socket`, where `data` is what `socket->readAll()` returns. Every iteration
of the loop removes at least four bytes, so `buffer.length` iterations are
enough for the loop to end by its own condition (`processLoop_settled`). -/
def processReceivedData (c : Codec) (nm : NetworkManager) (socket : Nat) (data : QByteArray) :
    NetworkManager :=
  let buffer := QMap.value nm.socketBuffers socket [] ++ data
  let result := processLoop c buffer.length nm buffer
  { result.1 with socketBuffers := QMap.insert result.1.socketBuffers socket result.2 }

/-- `QList<int>::indexOf`: the first index of `value`, or `-1`. -/
def indexOf (list : List Int) (value : Int) : Int :=
  if list.indexOf value < list.length then (list.indexOf value : Int) else -1

/-- The function `NetworkManager::startServer`; `listening` is the result
of `server->listen`. -/
def startServer (nm : NetworkManager) (port : Int) (listening : Bool) : NetworkManager :=
  if !listening then nm else { nm with serverPort := port }

/-- The function `NetworkManager::addPeer`. -/
def addPeer (nm : NetworkManager) (peerId : QString) (port : Int) : NetworkManager :=
  { nm with peerPorts := QMap.insert nm.peerPorts peerId port }

/-- The function `NetworkManager::connectToNeighbor`; `ptr` is the address
of the socket that `new QTcpSocket` returns. The new socket is left looking
up the host (`connectToHost`). A `disconnected()` signal that
`disconnectFromHost()` draws from the old socket is the separate event
`Event.disconnected`, delivered before this call. -/
def connectToNeighbor (nm : NetworkManager) (host : QString) (port : Int) (ptr : Nat) :
    NetworkManager :=
  let nm := { nm with neighborHost := host }
  let nm := { nm with neighborPort := port }
  { nm with
    neighborSocket :=
      some { ptr := ptr, state := SocketState.HostLookupState, written := [] } }

/-- The function `NetworkManager::setRingTopology`. The two operands of `%`
are never negative here, so the C++ remainder is the mathematical one; the
index of `ringPorts[nextIndex]` is always in range. -/
def setRingTopology (nm : NetworkManager) (ports : List Int) (currentPort : Int) :
    NetworkManager :=
  let nm := { nm with ringPorts := ports }
  let nm := { nm with currentPortIndex := indexOf nm.ringPorts currentPort }
  if nm.currentPortIndex ≠ -1 ∧ nm.ringPorts ≠ [] then
    let nextIndex := (nm.currentPortIndex + 1) % (nm.ringPorts.length : Int)
    let nextPort := nm.ringPorts.getD nextIndex.toNat 0
    if nextPort ≠ currentPort then
      { nm with singleShots := nm.singleShots ++ [(2000, nextPort)] }
    else nm
  else nm

/-- The slot `NetworkManager::onNewConnection`; `clients` are the pending
connections in the order `nextPendingConnection` returns them. -/
def onNewConnection (nm : NetworkManager) (clients : List Nat) : NetworkManager :=
  clients.foldl
    (fun st clientSocket =>
      { st with socketBuffers := QMap.insert st.socketBuffers clientSocket [] })
    nm

/-- The slot `NetworkManager::onDataReceived` for the sender `socket`. -/
def onDataReceived (c : Codec) (nm : NetworkManager) (socket : Nat) (data : QByteArray) :
    NetworkManager :=
  processReceivedData c nm socket data

/-- The slot `NetworkManager::onDisconnected` for the sender `socket` (the
slot is connected to socket signals only, so the sender is a socket). -/
def onDisconnected (nm : NetworkManager) (socket : Nat) : NetworkManager :=
  let nm := { nm with socketBuffers := QMap.remove nm.socketBuffers socket }
  if nm.neighborSocket.map (fun s => s.ptr) = some socket then
    let nm := { nm with emitted := nm.emitted ++ [Signal.connectionLost] }
    { nm with retryTimer := some 3000 }
  else nm

/-- The slot `NetworkManager::onConnectionError` for the sender `socket`. -/
def onConnectionError (nm : NetworkManager) (socket : Nat) : NetworkManager :=
  if nm.neighborSocket.map (fun s => s.ptr) = some socket then
    { nm with retryTimer := some 3000 }
  else nm

/-- The slot `NetworkManager::retryConnection`. -/
def retryConnection (nm : NetworkManager) (ptr : Nat) : NetworkManager :=
  if !nm.neighborHost.isEmpty && decide (nm.neighborPort > 0) then
    connectToNeighbor nm nm.neighborHost nm.neighborPort ptr
  else nm

/-- The neighbor socket reports `connected()`: Qt has put it in the
connected state, and `connectToNeighbor` wired that signal to the signal
`connectionEstablished` and to nothing else. -/
def socketConnected (nm : NetworkManager) : NetworkManager :=
  match nm.neighborSocket with
  | none => nm
  | some socket =>
    { nm with
      neighborSocket := some { socket with state := SocketState.ConnectedState }
      emitted := nm.emitted ++ [Signal.connectionEstablished] }

/-- The socket `socket` has left the connected state (Qt does this before it
signals `disconnected()` or a connection error). -/
def socketClosed (nm : NetworkManager) (socket : Nat) : NetworkManager :=
  match nm.neighborSocket with
  | none => nm
  | some s =>
    if s.ptr = socket then
      { nm with neighborSocket := some { s with state := SocketState.UnconnectedState } }
    else nm

/-- The single-shot `retryTimer` fires: it stops running and its `timeout`
signal calls `retryConnection`. Nothing happens while it is not running. -/
def retryTimeout (nm : NetworkManager) (ptr : Nat) : NetworkManager :=
  match nm.retryTimer with
  | none => nm
  | some _ => retryConnection { nm with retryTimer := none } ptr

/-- The outstanding `QTimer::singleShot` request number `index` fires: the
lambda of `setRingTopology` calls `connectToNeighbor("localhost", port)`. -/
def singleShotTimeout (nm : NetworkManager) (index : Nat) (ptr : Nat) : NetworkManager :=
  match nm.singleShots[index]? with
  | none => nm
  | some request =>
    connectToNeighbor { nm with singleShots := nm.singleShots.eraseIdx index }
      (qstr "localhost") request.2 ptr

end NetworkManager

/-- Everything that can happen to a `NetworkManager`: the calls of its
public functions and the Qt signals connected to its slots. -/
inductive Event where
  | startServer (port : Int) (listening : Bool)
  | setNodeId (nodeId : QString)
  | addPeer (peerId : QString) (port : Int)
  | setRingTopology (ports : List Int) (currentPort : Int)
  | connectToNeighbor (host : QString) (port : Int) (ptr : Nat)
  | sendMessage (message : Message)
  | newConnection (clients : List Nat)
  | readyRead (socket : Nat) (data : QByteArray)
  | connected
  | disconnected (socket : Nat)
  | errorOccurred (socket : Nat)
  | retryTimeout (ptr : Nat)
  | singleShotTimeout (index : Nat) (ptr : Nat)
  deriving DecidableEq, Repr

namespace NetworkManager

/-- The manager after one event. -/
def step (c : Codec) (nm : NetworkManager) : Event → NetworkManager
  | .startServer port listening => startServer nm port listening
  | .setNodeId nodeId => setNodeId nm nodeId
  | .addPeer peerId port => addPeer nm peerId port
  | .setRingTopology ports currentPort => setRingTopology nm ports currentPort
  | .connectToNeighbor host port ptr => connectToNeighbor nm host port ptr
  | .sendMessage message => sendMessage c nm message
  | .newConnection clients => onNewConnection nm clients
  | .readyRead socket data => onDataReceived c nm socket data
  | .connected => socketConnected nm
  | .disconnected socket => onDisconnected (socketClosed nm socket) socket
  | .errorOccurred socket => onConnectionError (socketClosed nm socket) socket
  | .retryTimeout ptr => retryTimeout nm ptr
  | .singleShotTimeout index ptr => singleShotTimeout nm index ptr

/-- The manager after a series of events, oldest first. -/
def run (c : Codec) (nm : NetworkManager) (events : List Event) : NetworkManager :=
  events.foldl (step c) nm

end NetworkManager

/-! ## SimpleChat (`simplechat.h`, `simplechat.cpp`) -/

/-- The calls made on the `ChatWindow`, which is what the consumer sees. -/
inductive WindowCall where
  | appendMessage (message : QString)
  | appendSentMessage (nodeId : QString) (message : QString)
  | appendReceivedMessage (nodeId : QString) (message : QString)
  deriving DecidableEq, Repr

/-- The class `SimpleChat`: the window (the calls made on it, oldest
first), the network manager, and the node id. -/
structure SimpleChat where
  window : List WindowCall
  networkManager : NetworkManager
  serverPort : Int
  nodeId : QString
  deriving DecidableEq, Repr

namespace SimpleChat

/-- The slot connected to one signal of the network manager:
`onMessageReceived`, `onConnectionEstablished`, `onConnectionLost`. -/
def slot (window : List WindowCall) : Signal → List WindowCall
  | .messageReceived message =>
    window ++ [WindowCall.appendReceivedMessage message.origin message.chatText]
  | .connectionEstablished =>
    window ++ [WindowCall.appendMessage (qstr "Connected to ring network")]
  | .connectionLost =>
    window ++ [WindowCall.appendMessage
      (qstr "Lost connection to ring network, attempting to reconnect...")]

/-- Run an operation of the network manager; the signals it emits reach the
slots of `SimpleChat` in the order they are emitted. -/
def withNetwork (app : SimpleChat) (op : NetworkManager → NetworkManager) : SimpleChat :=
  let nm := op app.networkManager
  let fresh := nm.emitted.drop app.networkManager.emitted.length
  { app with networkManager := nm, window := fresh.foldl slot app.window }

/-- The slot `SimpleChat::onMessageEntered`. -/
def onMessageEntered (c : Codec) (app : SimpleChat) (text destination : QString) : SimpleChat :=
  let trimmedText := text.trimmed
  if trimmedText.isEmpty then
    { app with window := app.window ++ [WindowCall.appendMessage (qstr "Message cannot be empty.")] }
  else if destination.isEmpty then
    { app with window := app.window ++ [WindowCall.appendMessage (qstr "Please select a destination.")] }
  else
    let message := Message.mk trimmedText app.nodeId destination 1
    let app := app.withNetwork (fun nm => nm.sendMessage c message)
    { app with window := app.window ++ [WindowCall.appendSentMessage destination trimmedText] }

end SimpleChat

/-! ## A concrete codec

An instance of `Codec` that follows the layout `QDataStream` documents for
`QMap<QString, QVariant>`: a 32-bit entry count, then for each entry the key
(32-bit byte length, UTF-16 big-endian code units) and the value (32-bit type
id, a null flag, the data). -/

/-- Bytes of a `QString`: byte length, then the code units, high byte
first. -/
def writeQString (s : QString) : QByteArray :=
  writeUInt32 (2 * s.length % 4294967296) ++
    s.flatMap (fun ch => [⟨ch.val / 256 % 256, Nat.mod_lt _ (by decide)⟩,
                          ⟨ch.val % 256, Nat.mod_lt _ (by decide)⟩])

/-- Bytes of a `QVariant`: type id (0 invalid, 2 int, 10 QString), null
flag, data. An invalid variant carries a null string (length field
`0xFFFFFFFF`). -/
def writeQVariant : QVariant → QByteArray
  | .invalid => writeUInt32 0 ++ [1] ++ writeUInt32 4294967295
  | .int n => writeUInt32 2 ++ [0] ++ writeUInt32 (n % 4294967296).toNat
  | .string s => writeUInt32 10 ++ [0] ++ writeQString s

/-- Bytes of a `QVariantMap`. -/
def writeQVariantMap (m : QVariantMap) : QByteArray :=
  writeUInt32 (m.length % 4294967296) ++
    m.flatMap (fun e => writeQString e.1 ++ writeQVariant e.2)

/-- Code units of a big-endian UTF-16 byte sequence. -/
def codeUnits : QByteArray → QString
  | hi :: lo :: rest =>
    ⟨(hi.val * 256 + lo.val) % 65536, Nat.mod_lt _ (by decide)⟩ :: codeUnits rest
  | _ => []

/-- Read a `QString`; the rest of the stream is returned with it. -/
def readQString (b : QByteArray) : Option (QString × QByteArray) :=
  if b.length < 4 then none
  else
    let n := readUInt32 b
    let b := b.drop 4
    if n = 4294967295 then some ([], b)
    else if b.length < n then none
    else some (codeUnits (b.take n), b.drop n)

/-- Read a `QVariant`. -/
def readQVariant (b : QByteArray) : Option (QVariant × QByteArray) :=
  if b.length < 5 then none
  else
    let typeId := readUInt32 b
    let b := b.drop 5
    if typeId = 0 then (readQString b).map (fun r => (QVariant.invalid, r.2))
    else if typeId = 2 then
      if b.length < 4 then none
      else some (QVariant.int (wrapInt32 (readUInt32 b)), b.drop 4)
    else if typeId = 10 then (readQString b).map (fun r => (QVariant.string r.1, r.2))
    else none

/-- Read `count` entries into `acc`. -/
def readEntries : Nat → QByteArray → QVariantMap → Option QVariantMap
  | 0, _, acc => some acc
  | count + 1, b, acc =>
    match readQString b with
    | none => none
    | some (key, b) =>
      match readQVariant b with
      | none => none
      | some (value, b) => readEntries count b (QMap.insert acc key value)

/-- Read a `QVariantMap`; a stream that cannot be read leaves the map
empty. -/
def readQVariantMap (b : QByteArray) : QVariantMap :=
  if b.length < 4 then []
  else (readEntries (readUInt32 b) (b.drop 4) []).getD []

/-- The concrete codec. -/
def qtCodec : Codec :=
  { write := writeQVariantMap, read := readQVariantMap }

/-! ## Vocabulary of the statements -/

namespace NetworkManager

/-- What one iteration of the receive loop does with the decoded message
(the `if (message.isValid())` block of `processReceivedData`): nothing for
an invalid message, `deliverMessage` when the destination is this node,
`forwardMessage` otherwise. -/
def route (c : Codec) (nm : NetworkManager) (message : Message) : NetworkManager :=
  if message.isValid then
    if message.destination = nm.nodeId then deliverMessage nm message
    else forwardMessage c nm message
  else nm

/-- The bytes `forwardMessage` writes for one message: the 4-byte length
of the payload, then the payload. -/
def frame (c : Codec) (message : Message) : QByteArray :=
  writeUInt32 ((message.writeTo c).length % 4294967296) ++ message.writeTo c

/-- The neighbor socket exists and is in the connected state. -/
def connected (nm : NetworkManager) : Bool :=
  match nm.neighborSocket with
  | none => false
  | some socket => decide (socket.state = SocketState.ConnectedState)

/-- All bytes written to the neighbor socket so far (none without a
socket). -/
def written (nm : NetworkManager) : QByteArray :=
  match nm.neighborSocket with
  | none => []
  | some socket => socket.written

/-- The connection buffer of `socket` (empty when it has none yet). -/
def bufferOf (nm : NetworkManager) (socket : Nat) : QByteArray :=
  QMap.value nm.socketBuffers socket []

end NetworkManager

/-- The messages of `ms` with the sequence numbers `start`, `start + 1`, ...
in place of their own. -/
def renumber : Int → List Message → List Message
  | _, [] => []
  | start, m :: ms => m.setSequenceNumber start :: renumber (start + 1) ms

/-- The receive loop run to its end on `buffer`, with the number of
iterations `processReceivedData` allows. -/
def NetworkManager.drain (c : Codec) (nm : NetworkManager) (buffer : QByteArray) :
    NetworkManager × QByteArray :=
  NetworkManager.processLoop c buffer.length nm buffer

/-- The number of retries that are pending: the manager owns one
`retryTimer`, which is running or not. -/
def NetworkManager.pendingRetries (nm : NetworkManager) : Nat :=
  match nm.retryTimer with
  | none => 0
  | some _ => 1

/-- The byte stream made of one complete frame per payload: the 4-byte
length of the payload, then the payload. -/
def wire (payloads : List QByteArray) : QByteArray :=
  payloads.flatMap (fun payload => writeUInt32 payload.length ++ payload)

/-- The bytes written to the neighbor socket between the state `earlier`
and the state `later` of a manager that kept its socket. -/
def NetworkManager.output (earlier later : NetworkManager) : QByteArray :=
  later.written.drop earlier.written.length

/-- One hop in a ring of managers: the node at position `pos` reads `bytes`
from its inbound connection `inbound`; the result is the ring with that node
updated, and the bytes the node wrote to its successor during the read. -/
def ringHop (c : Codec) (inbound : Nat) (ring : List NetworkManager) (pos : Nat)
    (bytes : QByteArray) : List NetworkManager × QByteArray :=
  match ring[pos]? with
  | none => (ring, [])
  | some nm =>
    (ring.set pos (nm.processReceivedData c inbound bytes),
      nm.output (nm.processReceivedData c inbound bytes))

/-- The ring after `hops` hops: what a node writes is what its successor
(the next position, wrapping at the end) reads. The result is the ring, the
position of the node that reads next, and the bytes in transit to it. -/
def ringHops (c : Codec) (inbound : Nat) :
    Nat → List NetworkManager → Nat → QByteArray → List NetworkManager × Nat × QByteArray
  | 0, ring, pos, bytes => (ring, pos, bytes)
  | hops + 1, ring, pos, bytes =>
    let next := ringHop c inbound ring pos bytes
    ringHops c inbound hops next.1 ((pos + 1) % ring.length) next.2

/-- The manager with other contents in the two maps of the "Sequence
ordering mechanism". -/
def NetworkManager.withReorderState (nm : NetworkManager)
    (pending : QMap QString (QMap Int Message)) (expected : QMap QString Int) :
    NetworkManager :=
  { nm with pendingMessages := pending, expectedSequenceNumbers := expected }

/-! ## Sample values -/

/-- A neighbor socket in the connected state with nothing written yet. -/
def linkedSocket : QTcpSocket :=
  { ptr := 1, state := SocketState.ConnectedState, written := [] }

/-- A freshly constructed manager with node id `Node1`. -/
def node1 : NetworkManager :=
  NetworkManager.new.setNodeId (qstr "Node1")

/-- The manager `node1` once its neighbor link is connected. -/
def node1Linked : NetworkManager :=
  { node1 with neighborSocket := some linkedSocket }

/-- A freshly constructed manager with node id `Node2`. -/
def node2 : NetworkManager :=
  NetworkManager.new.setNodeId (qstr "Node2")

/-- The manager `node2` once its neighbor link is connected. -/
def node2Linked : NetworkManager :=
  { node2 with neighborSocket := some linkedSocket }

/-- A manager with node id `Node3` whose neighbor link is connected. -/
def node3Linked : NetworkManager :=
  { NetworkManager.new.setNodeId (qstr "Node3") with neighborSocket := some linkedSocket }

/-- A message from `Node1` to a node `Node9` that is in no ring. -/
def toNowhere : Message :=
  Message.mk (qstr "lost") (qstr "Node1") (qstr "Node9") 4

/-- A message from `Node1` to `Node2` with sequence number `seq`. -/
def toNode2 (seq : Int) : Message :=
  Message.mk (qstr "hi") (qstr "Node1") (qstr "Node2") seq

/-- A message from `Node1` to `Node3` with sequence number `seq`. -/
def toNode3 (seq : Int) : Message :=
  Message.mk (qstr "yo") (qstr "Node1") (qstr "Node3") seq

/-! ## Theorems -/

set_option maxRecDepth 100000

theorem QString.isEmpty_eq_false_iff (s : QString) : s.isEmpty = false ↔ s ≠ [] := by
  cases s <;> simp [QString.isEmpty]

theorem Message.isValid_mk_iff (text origin destination : QString) (seq : Int) :
    (Message.mk text origin destination seq).isValid = true ↔
      (text ≠ [] ∧ origin ≠ [] ∧ destination ≠ [] ∧ seq ≥ 1) := by
  simp only [Message.isValid, Bool.and_eq_true, Bool.not_eq_true',
    QString.isEmpty_eq_false_iff, decide_eq_true_eq]
  tauto

/-- C1: `Message(text, origin, destination, seq).isValid()` is true exactly
when the three strings are non-empty and `seq ≥ 1`; whitespace-only text is
valid, and every `seq ≤ 0` is invalid. -/
theorem C1_isValid_iff :
    (∀ (text origin destination : QString) (seq : Int),
      (Message.mk text origin destination seq).isValid = true ↔
        (text ≠ [] ∧ origin ≠ [] ∧ destination ≠ [] ∧ seq ≥ 1)) ∧
    (∀ (origin destination : QString) (seq : Int),
      origin ≠ [] → destination ≠ [] → seq ≥ 1 →
        (Message.mk (qstr "   ") origin destination seq).isValid = true) ∧
    (∀ (text origin destination : QString) (seq : Int),
      seq ≤ 0 → (Message.mk text origin destination seq).isValid = false) := by
  have key := Message.isValid_mk_iff
  refine ⟨key, ?_, ?_⟩
  · intro origin destination seq ho hd hs
    exact (key _ _ _ _).2 ⟨by decide, ho, hd, hs⟩
  · intro text origin destination seq hs
    cases h : (Message.mk text origin destination seq).isValid
    · rfl
    · have := ((key _ _ _ _).1 h).2.2.2
      omega

/-! ### QMap -/

theorem QMap.find_insert_self {κ α : Type} [DecidableEq κ] (m : QMap κ α) (k : κ) (v : α) :
    QMap.find (QMap.insert m k v) k = some v := by
  induction m with
  | nil => simp [QMap.insert, QMap.find]
  | cons e rest ih =>
    obtain ⟨k', v'⟩ := e
    by_cases h : k' = k
    · simp [QMap.insert, QMap.find, h]
    · simp [QMap.insert, QMap.find, h, ih]

theorem QMap.value_insert_self {κ α : Type} [DecidableEq κ] (m : QMap κ α) (k : κ) (v d : α) :
    QMap.value (QMap.insert m k v) k d = v := by
  simp [QMap.value, QMap.find_insert_self]

theorem QMap.insert_insert {κ α : Type} [DecidableEq κ] (m : QMap κ α) (k : κ) (v w : α) :
    QMap.insert (QMap.insert m k v) k w = QMap.insert m k w := by
  induction m with
  | nil => simp [QMap.insert]
  | cons e rest ih =>
    obtain ⟨k', v'⟩ := e
    by_cases h : k' = k
    · simp [QMap.insert, h]
    · simp [QMap.insert, h, ih]

/-! ### Message -/

theorem Message.fromVariantMap_toVariantMap (m : Message) :
    Message.fromVariantMap m.toVariantMap = m := by
  cases m
  simp only [Message.fromVariantMap, Message.toVariantMap, Message.default, QMap.value,
    QMap.insert, QMap.find]
  simp [QVariant.toString, QVariant.toInt, QMap.find, show qstr "ChatText" ≠ qstr "Origin" by decide,
    show qstr "ChatText" ≠ qstr "Destination" by decide,
    show qstr "ChatText" ≠ qstr "SequenceNumber" by decide,
    show qstr "Origin" ≠ qstr "Destination" by decide,
    show qstr "Origin" ≠ qstr "SequenceNumber" by decide,
    show qstr "Destination" ≠ qstr "SequenceNumber" by decide]

/-- C2: `Message::fromVariantMap(m.toVariantMap())` has the text, origin,
destination and sequence number of `m`, for every message `m`, and so the
same `isValid()` result. -/
theorem C2_variantMap_roundTrip (m : Message) :
    (Message.fromVariantMap m.toVariantMap).chatText = m.chatText ∧
    (Message.fromVariantMap m.toVariantMap).origin = m.origin ∧
    (Message.fromVariantMap m.toVariantMap).destination = m.destination ∧
    (Message.fromVariantMap m.toVariantMap).sequenceNumber = m.sequenceNumber ∧
    (Message.fromVariantMap m.toVariantMap).isValid = m.isValid := by
  rw [Message.fromVariantMap_toVariantMap]
  exact ⟨rfl, rfl, rfl, rfl, rfl⟩

/-! ### The receive loop -/

namespace NetworkManager

theorem readUInt32_append (buffer more : QByteArray) (h : 4 ≤ buffer.length) :
    readUInt32 (buffer ++ more) = readUInt32 buffer := by
  match buffer, h with
  | _ :: _ :: _ :: _ :: _, _ => rfl

theorem readUInt32_writeUInt32 (n : Nat) (h : n < 4294967296) (rest : QByteArray) :
    readUInt32 (writeUInt32 n ++ rest) = n := by
  simp only [writeUInt32, readUInt32, List.cons_append, List.nil_append]
  omega

theorem processLoop_step (c : Codec) (fuel : Nat) (nm : NetworkManager) (buffer : QByteArray) :
    processLoop c (fuel + 1) nm buffer =
      if buffer.length ≥ 4 then
        if buffer.length < 4 + readUInt32 buffer then (nm, buffer)
        else processLoop c fuel
          (route c nm (Message.readFrom c ((buffer.drop 4).take (readUInt32 buffer))))
          ((buffer.drop 4).drop (readUInt32 buffer))
      else (nm, buffer) := by
  simp only [processLoop, route]
  split_ifs <;> rfl

theorem processLoop_fuel (c : Codec) :
    ∀ (f1 f2 : Nat) (nm : NetworkManager) (buffer : QByteArray),
      buffer.length ≤ f1 → buffer.length ≤ f2 →
        processLoop c f1 nm buffer = processLoop c f2 nm buffer := by
  intro f1
  induction f1 with
  | zero =>
    intro f2 nm buffer h1 _
    have hb : buffer = [] := List.length_eq_zero.mp (Nat.le_zero.mp h1)
    subst hb
    cases f2 with
    | zero => rfl
    | succ k => rw [processLoop_step]; simp [processLoop]
  | succ n ih =>
    intro f2 nm buffer h1 h2
    cases f2 with
    | zero =>
      have hb : buffer = [] := List.length_eq_zero.mp (Nat.le_zero.mp h2)
      subst hb
      rw [processLoop_step]; simp [processLoop]
    | succ k =>
      rw [processLoop_step, processLoop_step]
      split_ifs with h4 hinc
      · rfl
      · apply ih
        · simp only [List.length_drop]; omega
        · simp only [List.length_drop]; omega
      · rfl

/-- With the iterations `processReceivedData` allows, the loop always ends
by its own exit condition: the buffer it leaves holds no complete frame. -/
theorem processLoop_settled (c : Codec) :
    ∀ (fuel : Nat) (nm : NetworkManager) (buffer : QByteArray), buffer.length ≤ fuel →
      (processLoop c fuel nm buffer).2.length < 4 ∨
      (processLoop c fuel nm buffer).2.length <
        4 + readUInt32 (processLoop c fuel nm buffer).2 := by
  intro fuel
  induction fuel with
  | zero =>
    intro nm buffer h
    left
    simp only [processLoop]
    omega
  | succ n ih =>
    intro nm buffer h
    rw [processLoop_step]
    split_ifs with h4 hinc
    · right; exact hinc
    · apply ih
      simp only [List.length_drop]; omega
    · left; simpa using h4

theorem drain_step (c : Codec) (nm : NetworkManager) (buffer : QByteArray) :
    drain c nm buffer =
      if buffer.length ≥ 4 then
        if buffer.length < 4 + readUInt32 buffer then (nm, buffer)
        else drain c
          (route c nm (Message.readFrom c ((buffer.drop 4).take (readUInt32 buffer))))
          ((buffer.drop 4).drop (readUInt32 buffer))
      else (nm, buffer) := by
  unfold drain
  by_cases h0 : buffer.length = 0
  · have hb : buffer = [] := List.length_eq_zero.mp h0
    subst hb
    simp [processLoop]
  · obtain ⟨n, hn⟩ := Nat.exists_eq_succ_of_ne_zero h0
    have e : processLoop c buffer.length nm buffer = processLoop c (n + 1) nm buffer := by
      rw [hn]
    rw [e, processLoop_step]
    split_ifs with h4 hinc
    · rfl
    · apply processLoop_fuel
      · simp only [List.length_drop]; omega
      · exact le_refl _
    · rfl

theorem drain_append (c : Codec) :
    ∀ (n : Nat) (nm : NetworkManager) (buffer more : QByteArray), buffer.length ≤ n →
      drain c nm (buffer ++ more) =
        drain c (drain c nm buffer).1 ((drain c nm buffer).2 ++ more) := by
  intro n
  induction n with
  | zero =>
    intro nm buffer more h
    have hb : buffer = [] := List.length_eq_zero.mp (Nat.le_zero.mp h)
    subst hb
    rw [drain_step c nm []]
    simp
  | succ n ih =>
    intro nm buffer more h
    rw [drain_step c nm buffer]
    split_ifs with h4 hinc
    · rfl
    · have hsize : readUInt32 buffer ≤ (buffer.drop 4).length := by
        simp only [List.length_drop]; omega
      rw [drain_step c nm (buffer ++ more)]
      have h4' : (buffer ++ more).length ≥ 4 := by simp only [List.length_append]; omega
      have hc' : ¬ (buffer ++ more).length < 4 + readUInt32 (buffer ++ more) := by
        rw [readUInt32_append _ _ h4]; simp only [List.length_append]; omega
      rw [if_pos h4', if_neg hc', readUInt32_append _ _ h4]
      have hd4 : (buffer ++ more).drop 4 = buffer.drop 4 ++ more :=
        List.drop_append_of_le_length h4
      rw [hd4, List.take_append_of_le_length hsize, List.drop_append_of_le_length hsize]
      apply ih
      simp only [List.length_drop]; omega
    · rfl

end NetworkManager

/-! ### The connection buffers are private to the loop -/

namespace NetworkManager

theorem route_withBuffers (c : Codec) (nm : NetworkManager) (m : Message)
    (x : QMap Nat QByteArray) :
    route c { nm with socketBuffers := x } m = { route c nm m with socketBuffers := x } := by
  unfold route
  split_ifs
  · rfl
  · simp only [forwardMessage]
    cases nm.neighborSocket with
    | none => rfl
    | some socket => simp only []; split_ifs <;> rfl
  · rfl

theorem route_socketBuffers (c : Codec) (nm : NetworkManager) (m : Message) :
    (route c nm m).socketBuffers = nm.socketBuffers := by
  unfold route
  split_ifs
  · rfl
  · simp only [forwardMessage]
    cases nm.neighborSocket with
    | none => rfl
    | some socket => simp only []; split_ifs <;> rfl
  · rfl

theorem processLoop_withBuffers (c : Codec) (x : QMap Nat QByteArray) :
    ∀ (fuel : Nat) (nm : NetworkManager) (buffer : QByteArray),
      processLoop c fuel { nm with socketBuffers := x } buffer =
        ({ (processLoop c fuel nm buffer).1 with socketBuffers := x },
          (processLoop c fuel nm buffer).2) := by
  intro fuel
  induction fuel with
  | zero => intro nm buffer; rfl
  | succ n ih =>
    intro nm buffer
    rw [processLoop_step, processLoop_step]
    split_ifs
    · rfl
    · rw [route_withBuffers, ih]
    · rfl

theorem processLoop_socketBuffers (c : Codec) :
    ∀ (fuel : Nat) (nm : NetworkManager) (buffer : QByteArray),
      (processLoop c fuel nm buffer).1.socketBuffers = nm.socketBuffers := by
  intro fuel
  induction fuel with
  | zero => intro nm buffer; rfl
  | succ n ih =>
    intro nm buffer
    rw [processLoop_step]
    split_ifs
    · rfl
    · rw [ih, route_socketBuffers]
    · rfl

theorem processReceivedData_eq (c : Codec) (nm : NetworkManager) (socket : Nat)
    (data : QByteArray) :
    processReceivedData c nm socket data =
      { (drain c nm (bufferOf nm socket ++ data)).1 with
        socketBuffers :=
          QMap.insert nm.socketBuffers socket (drain c nm (bufferOf nm socket ++ data)).2 } := by
  simp only [processReceivedData, drain, bufferOf, processLoop_socketBuffers]

/-- The call `processReceivedData` always returns, and the buffer it leaves
for the socket holds no complete frame: fewer than four bytes, or fewer
bytes than the header announces. -/
theorem processReceivedData_settled (c : Codec) (nm : NetworkManager) (socket : Nat)
    (data : QByteArray) :
    ((processReceivedData c nm socket data).bufferOf socket).length < 4 ∨
    ((processReceivedData c nm socket data).bufferOf socket).length <
      4 + readUInt32 ((processReceivedData c nm socket data).bufferOf socket) := by
  rw [processReceivedData_eq]
  simp only [bufferOf, QMap.value_insert_self]
  exact processLoop_settled c _ nm _ (le_refl _)

theorem processReceivedData_append (c : Codec) (nm : NetworkManager) (socket : Nat)
    (a b : QByteArray) :
    processReceivedData c (processReceivedData c nm socket a) socket b =
      processReceivedData c nm socket (a ++ b) := by
  rw [processReceivedData_eq c nm socket a, processReceivedData_eq c nm socket (a ++ b),
    processReceivedData_eq]
  simp only [bufferOf, QMap.value_insert_self, QMap.insert_insert]
  rw [← List.append_assoc, drain_append c _ nm (QMap.value nm.socketBuffers socket [] ++ a) b
    (le_refl _)]
  simp only [drain, processLoop_withBuffers]

/-- C3: split-invariance of the frame assembler. Feeding a byte stream to
`processReceivedData` chunk by chunk, for every way of cutting the stream
into consecutive chunks, leaves the manager in the same state (the same
messages delivered and forwarded in the same order, the same residual
connection buffer) as one call with the whole stream. -/
theorem C3_split_invariance (c : Codec) (socket : Nat) (rest : List QByteArray) :
    ∀ (nm : NetworkManager) (chunk : QByteArray),
      (chunk :: rest).foldl (fun st piece => processReceivedData c st socket piece) nm =
        processReceivedData c nm socket (chunk :: rest).flatten := by
  induction rest with
  | nil => intro nm chunk; simp
  | cons next rest ih =>
    intro nm chunk
    have h := ih (processReceivedData c nm socket chunk) next
    simp only [List.foldl_cons, List.flatten_cons] at h ⊢
    rw [h, processReceivedData_append]

end NetworkManager

/-! ### Frames -/

namespace NetworkManager

theorem drain_nil (c : Codec) (nm : NetworkManager) : drain c nm [] = (nm, []) := rfl

theorem drain_frame (c : Codec) (nm : NetworkManager) (payload rest : QByteArray)
    (h : payload.length < 4294967296) :
    drain c nm (writeUInt32 payload.length ++ payload ++ rest) =
      drain c (route c nm (Message.readFrom c payload)) rest := by
  rw [drain_step]
  have hr : readUInt32 (writeUInt32 payload.length ++ payload ++ rest) = payload.length := by
    rw [List.append_assoc]; exact readUInt32_writeUInt32 _ h _
  have hl : (writeUInt32 payload.length ++ payload ++ rest).length =
      4 + payload.length + rest.length := by
    simp [writeUInt32]; omega
  have hd : (writeUInt32 payload.length ++ payload ++ rest).drop 4 = payload ++ rest := by
    simp [writeUInt32]
  rw [hr, hd, hl, if_pos (by omega), if_neg (by omega)]
  simp

theorem frame_eq (c : Codec) (m : Message) (h : (m.writeTo c).length < 4294967296) :
    frame c m = writeUInt32 (m.writeTo c).length ++ m.writeTo c := by
  unfold frame
  rw [Nat.mod_eq_of_lt h]

theorem drain_frames (c : Codec) (rest : QByteArray) :
    ∀ (ms : List Message) (nm : NetworkManager),
      (∀ m ∈ ms, (m.writeTo c).length < 4294967296 ∧ Message.readFrom c (m.writeTo c) = m) →
        drain c nm (ms.flatMap (frame c) ++ rest) = drain c (ms.foldl (route c) nm) rest := by
  intro ms
  induction ms with
  | nil => intro nm _; rfl
  | cons m ms ih =>
    intro nm h
    obtain ⟨hlen, hrt⟩ := h m (List.mem_cons_self _ _)
    rw [List.flatMap_cons, frame_eq c m hlen, List.append_assoc, drain_frame c nm _ _ hlen,
      hrt, ih _ (fun x hx => h x (List.mem_cons_of_mem _ hx))]
    rfl

theorem route_nodeId (c : Codec) (nm : NetworkManager) (m : Message) :
    (route c nm m).nodeId = nm.nodeId := by
  unfold route
  split_ifs
  · rfl
  · simp only [forwardMessage]
    cases nm.neighborSocket with
    | none => rfl
    | some socket => simp only []; split_ifs <;> rfl
  · rfl

theorem route_valid (c : Codec) (nm : NetworkManager) (m : Message) (h : m.isValid = true) :
    route c nm m =
      if m.destination = nm.nodeId then deliverMessage nm m else forwardMessage c nm m := by
  simp [route, h]

theorem foldl_route_valid (c : Codec) :
    ∀ (ms : List Message) (nm : NetworkManager), (∀ m ∈ ms, m.isValid = true) →
      ms.foldl (route c) nm =
        ms.foldl (fun st m =>
          if m.destination = st.nodeId then deliverMessage st m else forwardMessage c st m) nm := by
  intro ms
  induction ms with
  | nil => intro nm _; rfl
  | cons m ms ih =>
    intro nm h
    simp only [List.foldl_cons]
    rw [route_valid c nm m (h m (List.mem_cons_self _ _)),
      ih _ (fun x hx => h x (List.mem_cons_of_mem _ hx))]

theorem foldl_route_nodeId (c : Codec) :
    ∀ (ms : List Message) (nm : NetworkManager), (ms.foldl (route c) nm).nodeId = nm.nodeId := by
  intro ms
  induction ms with
  | nil => intro nm; rfl
  | cons m ms ih => intro nm; simp only [List.foldl_cons]; rw [ih, route_nodeId]

theorem route_emitted (c : Codec) (nm : NetworkManager) (m : Message) :
    (route c nm m).emitted =
      nm.emitted ++
        (if m.isValid = true ∧ m.destination = nm.nodeId then [Signal.messageReceived m]
         else []) := by
  unfold route
  by_cases hv : m.isValid = true
  · by_cases hd : m.destination = nm.nodeId
    · simp [hv, hd, deliverMessage]
    · simp only [hv, hd, if_true, if_false, and_false, List.append_nil, forwardMessage]
      cases nm.neighborSocket with
      | none => rfl
      | some socket => simp only []; split_ifs <;> rfl
  · simp [hv]

theorem foldl_route_emitted (c : Codec) :
    ∀ (ms : List Message) (nm : NetworkManager),
      (ms.foldl (route c) nm).emitted =
        nm.emitted ++
          (ms.filter (fun m => m.isValid && decide (m.destination = nm.nodeId))).map
            Signal.messageReceived := by
  intro ms
  induction ms with
  | nil => intro nm; simp
  | cons m ms ih =>
    intro nm
    simp only [List.foldl_cons]
    rw [ih, route_emitted, route_nodeId]
    by_cases h : m.isValid = true ∧ m.destination = nm.nodeId
    · have hf : (m.isValid && decide (m.destination = nm.nodeId)) = true := by
        simp [h.1, h.2]
      rw [if_pos h]
      simp [List.filter_cons, hf]
    · have hf : ¬ (m.isValid && decide (m.destination = nm.nodeId)) = true := by
        simpa using h
      rw [if_neg h]
      simp [List.filter_cons, hf]

theorem forwardMessage_connected (c : Codec) (nm : NetworkManager) (sock : QTcpSocket)
    (m : Message) (hs : nm.neighborSocket = some sock)
    (hc : sock.state = SocketState.ConnectedState) :
    forwardMessage c nm m =
      { nm with neighborSocket := some { sock with written := sock.written ++ frame c m } } := by
  simp [forwardMessage, hs, hc, frame, List.append_assoc]

theorem forwardMessage_down (c : Codec) (nm : NetworkManager) (m : Message)
    (h : nm.connected = false) :
    forwardMessage c nm m = { nm with messageQueue := nm.messageQueue ++ [m] } := by
  unfold connected at h
  unfold forwardMessage
  cases hs : nm.neighborSocket with
  | none => rfl
  | some socket =>
    rw [hs] at h
    have hne : socket.state ≠ SocketState.ConnectedState := by simpa using h
    simp [hne]

theorem foldl_forwardMessage_connected (c : Codec) :
    ∀ (ms : List Message) (nm : NetworkManager) (sock : QTcpSocket),
      nm.neighborSocket = some sock → sock.state = SocketState.ConnectedState →
        ms.foldl (forwardMessage c) nm =
          { nm with
            neighborSocket :=
              some { sock with written := sock.written ++ ms.flatMap (frame c) } } := by
  intro ms
  induction ms with
  | nil => intro nm sock hs _; cases nm; cases sock; simp_all
  | cons m ms ih =>
    intro nm sock hs hc
    simp only [List.foldl_cons]
    rw [forwardMessage_connected c nm sock m hs hc,
      ih _ { sock with written := sock.written ++ frame c m } rfl hc]
    simp [List.append_assoc]

end NetworkManager

namespace NetworkManager

theorem processReceivedData_frames (c : Codec) (nm : NetworkManager) (socket : Nat)
    (ms : List Message) (hbuf : nm.bufferOf socket = [])
    (hms : ∀ m ∈ ms, (m.writeTo c).length < 4294967296 ∧ Message.readFrom c (m.writeTo c) = m) :
    processReceivedData c nm socket (ms.flatMap (frame c)) =
      { ms.foldl (route c) nm with socketBuffers := QMap.insert nm.socketBuffers socket [] } := by
  rw [processReceivedData_eq, hbuf, List.nil_append]
  have h := drain_frames c [] ms nm hms
  rw [List.append_nil] at h
  rw [h, drain_nil]

theorem written_foldl_forwardMessage (c : Codec) (ms : List Message) (nm : NetworkManager)
    (h : nm.connected = true) :
    (ms.foldl (forwardMessage c) nm).written = nm.written ++ ms.flatMap (frame c) ∧
    (ms.foldl (forwardMessage c) nm).messageQueue = nm.messageQueue := by
  unfold connected at h
  cases hs : nm.neighborSocket with
  | none => rw [hs] at h; simp at h
  | some sock =>
    rw [hs] at h
    have hc : sock.state = SocketState.ConnectedState := by simpa using h
    rw [foldl_forwardMessage_connected c ms nm sock hs hc]
    simp [written, hs]

/-- C4: framing round trip. For valid messages `ms` whose payloads are
shorter than 2^32 bytes and decode to themselves, a connected sender writes
for them the concatenation of their frames, each frame being the 4-byte
big-endian payload length followed by the payload; that byte stream, given
in one read to `processReceivedData` on an empty connection buffer, makes
the receiver handle exactly the messages `ms` in order (deliver those
addressed to it, forward the others), and leaves the buffer empty. -/
theorem C4_framing_roundTrip (c : Codec) (sender receiver : NetworkManager) (socket : Nat)
    (ms : List Message) (hlink : sender.connected = true)
    (hbuf : receiver.bufferOf socket = [])
    (hms : ∀ m ∈ ms, m.isValid = true ∧ (m.writeTo c).length < 4294967296 ∧
      Message.readFrom c (m.writeTo c) = m) :
    (ms.foldl (forwardMessage c) sender).written =
      sender.written ++ ms.flatMap (frame c) ∧
    (∀ m ∈ ms, frame c m = writeUInt32 (m.writeTo c).length ++ m.writeTo c) ∧
    processReceivedData c receiver socket (ms.flatMap (frame c)) =
      { ms.foldl (fun st m =>
          if m.destination = st.nodeId then deliverMessage st m else forwardMessage c st m)
          receiver with
        socketBuffers := QMap.insert receiver.socketBuffers socket [] } ∧
    (processReceivedData c receiver socket (ms.flatMap (frame c))).bufferOf socket = [] ∧
    (processReceivedData c receiver socket (ms.flatMap (frame c))).emitted =
      receiver.emitted ++
        (ms.filter (fun m => decide (m.destination = receiver.nodeId))).map
          Signal.messageReceived := by
  have hrt : ∀ m ∈ ms, (m.writeTo c).length < 4294967296 ∧
      Message.readFrom c (m.writeTo c) = m := fun m hm => (hms m hm).2
  have hv : ∀ m ∈ ms, m.isValid = true := fun m hm => (hms m hm).1
  have hrecv := processReceivedData_frames c receiver socket ms hbuf hrt
  refine ⟨(written_foldl_forwardMessage c ms sender hlink).1,
    fun m hm => frame_eq c m (hms m hm).2.1, ?_, ?_, ?_⟩
  · rw [hrecv, foldl_route_valid c ms receiver hv]
  · rw [hrecv]
    simp [bufferOf, QMap.value_insert_self]
  · rw [hrecv]
    simp only []
    rw [foldl_route_emitted]
    congr 2
    apply List.filter_congr
    intro m hm
    simp [hv m hm]

/-- Witness for C4: two frames in one read, the first addressed to the
receiver, the second in transit. -/
theorem C4_framing_roundTrip_witness :
    (node1Linked.connected = true ∧ node2.bufferOf 7 = []) ∧
    (processReceivedData qtCodec node2 7
        ([toNode2 1, toNode3 2].flatMap (frame qtCodec))).bufferOf 7 = [] ∧
    (processReceivedData qtCodec node2 7
        ([toNode2 1, toNode3 2].flatMap (frame qtCodec))).emitted =
      node2.emitted ++
        ([toNode2 1, toNode3 2].filter (fun m => decide (m.destination = node2.nodeId))).map
          Signal.messageReceived :=
  ⟨⟨by decide, by decide⟩,
    (C4_framing_roundTrip qtCodec node1Linked node2 7 [toNode2 1, toNode3 2]
      (by decide) (by decide) (by decide)).2.2.2⟩

end NetworkManager

namespace NetworkManager

/-- C5, the code at the arrival sequences of the claim: messages from one
origin addressed to the receiving node are released to the consumer in
arrival order, whatever their sequence numbers. Arrivals 1,3,2 are released
as 1,3,2; arrivals 2,2,1 as 2,2,1; arrivals 2,3 are both released although
1 never arrived. -/
theorem C5_released_in_arrival_order :
    (processReceivedData qtCodec node2 7
        ([toNode2 1, toNode2 3, toNode2 2].flatMap (frame qtCodec))).emitted =
      [Signal.messageReceived (toNode2 1), Signal.messageReceived (toNode2 3),
        Signal.messageReceived (toNode2 2)] ∧
    (processReceivedData qtCodec node2 7
        ([toNode2 2, toNode2 2, toNode2 1].flatMap (frame qtCodec))).emitted =
      [Signal.messageReceived (toNode2 2), Signal.messageReceived (toNode2 2),
        Signal.messageReceived (toNode2 1)] ∧
    (processReceivedData qtCodec node2 7
        ([toNode2 2, toNode2 3].flatMap (frame qtCodec))).emitted =
      [Signal.messageReceived (toNode2 2), Signal.messageReceived (toNode2 3)] := by
  refine ⟨?_, ?_, ?_⟩ <;> decide

theorem processReceivedData_nil (c : Codec) (nm : NetworkManager) (socket : Nat)
    (hbuf : nm.bufferOf socket = []) :
    processReceivedData c nm socket [] =
      { nm with socketBuffers := QMap.insert nm.socketBuffers socket [] } := by
  rw [processReceivedData_eq, hbuf]
  rfl

theorem processReceivedData_frame (c : Codec) (nm : NetworkManager) (socket : Nat)
    (payload rest : QByteArray) (hbuf : nm.bufferOf socket = [])
    (hlen : payload.length < 4294967296) :
    processReceivedData c nm socket (writeUInt32 payload.length ++ payload ++ rest) =
      processReceivedData c (route c nm (Message.readFrom c payload)) socket rest := by
  have hbuf' : (route c nm (Message.readFrom c payload)).bufferOf socket = [] := by
    unfold bufferOf at hbuf ⊢
    rw [route_socketBuffers]; exact hbuf
  rw [processReceivedData_eq, processReceivedData_eq, hbuf, hbuf', List.nil_append,
    List.nil_append, drain_frame c nm payload rest hlen, route_socketBuffers]

/-- C6: routing of a received frame. A frame whose payload decodes to the
valid message `m`, arriving on an empty connection buffer of node `n`: when
`m.destination = n` the message is delivered to the consumer and the
neighbor socket and the outbound queue are untouched; otherwise nothing is
delivered and `m` itself goes to `forwardMessage`, which writes its frame to
the connected successor or appends `m`, unchanged, to the queue. The bytes
`rest` that follow the frame are then processed from that state. -/
theorem C6_routing (c : Codec) (nm : NetworkManager) (socket : Nat)
    (payload rest : QByteArray) (m : Message) (hbuf : nm.bufferOf socket = [])
    (hlen : payload.length < 4294967296) (hdec : Message.readFrom c payload = m)
    (hv : m.isValid = true) :
    processReceivedData c nm socket (writeUInt32 payload.length ++ payload ++ rest) =
      processReceivedData c
        (if m.destination = nm.nodeId then deliverMessage nm m else forwardMessage c nm m)
        socket rest ∧
    (m.destination = nm.nodeId →
      (processReceivedData c nm socket (writeUInt32 payload.length ++ payload)).emitted =
        nm.emitted ++ [Signal.messageReceived m] ∧
      (processReceivedData c nm socket (writeUInt32 payload.length ++ payload)).neighborSocket =
        nm.neighborSocket ∧
      (processReceivedData c nm socket (writeUInt32 payload.length ++ payload)).messageQueue =
        nm.messageQueue) ∧
    (m.destination ≠ nm.nodeId →
      (processReceivedData c nm socket (writeUInt32 payload.length ++ payload)).emitted =
        nm.emitted ∧
      (nm.connected = true →
        (processReceivedData c nm socket (writeUInt32 payload.length ++ payload)).written =
          nm.written ++ frame c m ∧
        (processReceivedData c nm socket (writeUInt32 payload.length ++ payload)).messageQueue =
          nm.messageQueue) ∧
      (nm.connected = false →
        (processReceivedData c nm socket (writeUInt32 payload.length ++ payload)).messageQueue =
          nm.messageQueue ++ [m] ∧
        (processReceivedData c nm socket (writeUInt32 payload.length ++ payload)).neighborSocket =
          nm.neighborSocket)) := by
  have hstep : ∀ rest : QByteArray,
      processReceivedData c nm socket (writeUInt32 payload.length ++ payload ++ rest) =
        processReceivedData c
          (if m.destination = nm.nodeId then deliverMessage nm m else forwardMessage c nm m)
          socket rest := by
    intro rest
    rw [processReceivedData_frame c nm socket payload rest hbuf hlen, hdec, route_valid c nm m hv]
  have hone : processReceivedData c nm socket (writeUInt32 payload.length ++ payload) =
      { (if m.destination = nm.nodeId then deliverMessage nm m else forwardMessage c nm m) with
        socketBuffers := QMap.insert nm.socketBuffers socket [] } := by
    have h := hstep []
    rw [List.append_nil] at h
    rw [h, processReceivedData_nil]
    · have := route_socketBuffers c nm m
      rw [route_valid c nm m hv] at this
      rw [this]
    · have := route_socketBuffers c nm m
      rw [route_valid c nm m hv] at this
      unfold bufferOf at hbuf ⊢
      rw [this]; exact hbuf
  refine ⟨hstep rest, ?_, ?_⟩
  · intro hd
    rw [hone, if_pos hd]
    exact ⟨rfl, rfl, rfl⟩
  · intro hd
    rw [hone, if_neg hd]
    refine ⟨?_, ?_, ?_⟩
    · have := route_emitted c nm m
      rw [route_valid c nm m hv, if_neg hd] at this
      simpa [hd] using this
    · intro hconn
      have h := written_foldl_forwardMessage c [m] nm hconn
      simp only [List.foldl_cons, List.foldl_nil, List.flatMap_cons, List.flatMap_nil,
        List.append_nil] at h
      exact ⟨by simpa [written] using h.1, h.2⟩
    · intro hdown
      rw [forwardMessage_down c nm m hdown]
      exact ⟨rfl, rfl⟩

/-- Witness for C6: a frame for `Node3` received by `Node2` with its link
down is queued and not delivered. -/
theorem C6_routing_witness :
    (processReceivedData qtCodec node2 7
        (writeUInt32 ((toNode3 5).writeTo qtCodec).length ++
          (toNode3 5).writeTo qtCodec)).emitted = node2.emitted ∧
    (processReceivedData qtCodec node2 7
        (writeUInt32 ((toNode3 5).writeTo qtCodec).length ++
          (toNode3 5).writeTo qtCodec)).messageQueue = node2.messageQueue ++ [toNode3 5] :=
  have h := (C6_routing qtCodec node2 7 ((toNode3 5).writeTo qtCodec) [] (toNode3 5)
    (by decide) (by decide) (by decide) (by decide)).2.2 (by decide)
  ⟨h.1, (h.2.2 (by decide)).1⟩

/-- C8: self-send. A valid message addressed to the local node is
delivered to the local consumer exactly once, carrying the sequence number
taken from the counter; nothing is written to the neighbor socket and the
outbound queue does not change, whatever the state of the neighbor link. -/
theorem C8_self_send (c : Codec) (nm : NetworkManager) (m : Message)
    (hv : m.isValid = true) (hd : m.destination = nm.nodeId) :
    (sendMessage c nm m).emitted =
      nm.emitted ++
        [Signal.messageReceived
          (Message.mk m.chatText m.origin m.destination nm.nextSequenceNumber)] ∧
    (sendMessage c nm m).neighborSocket = nm.neighborSocket ∧
    (sendMessage c nm m).written = nm.written ∧
    (sendMessage c nm m).messageQueue = nm.messageQueue := by
  simp [sendMessage, hv, hd, Message.setSequenceNumber, deliverMessage, written]

/-- Witness for C8: `Node1` sends to itself while its link is connected. -/
theorem C8_self_send_witness :
    (sendMessage qtCodec node1Linked (Message.mk (qstr "me") (qstr "Node1") (qstr "Node1") 1)).emitted =
      node1Linked.emitted ++
        [Signal.messageReceived (Message.mk (qstr "me") (qstr "Node1") (qstr "Node1") 1)] ∧
    (sendMessage qtCodec node1Linked
      (Message.mk (qstr "me") (qstr "Node1") (qstr "Node1") 1)).written = node1Linked.written :=
  have h := C8_self_send qtCodec node1Linked
    (Message.mk (qstr "me") (qstr "Node1") (qstr "Node1") 1) (by decide) (by decide)
  ⟨h.1, h.2.2.1⟩

/-- C10: `sendMessage` does nothing with an invalid message. When the text,
the origin or the destination is empty, or the sequence number is at most 0
(the placeholder 0 included), the manager is left exactly as it was: nothing
delivered, written or queued, the counter unchanged, so that a following
send behaves as if the rejected call had not happened. -/
theorem C10_invalid_send_noop (c : Codec) (nm : NetworkManager) (m : Message)
    (h : m.chatText = [] ∨ m.origin = [] ∨ m.destination = [] ∨ m.sequenceNumber ≤ 0) :
    sendMessage c nm m = nm ∧
    (sendMessage c nm m).nextSequenceNumber = nm.nextSequenceNumber ∧
    ∀ next : Message, sendMessage c (sendMessage c nm m) next = sendMessage c nm next := by
  have hinv : m.isValid = false := by
    cases hval : m.isValid
    · rfl
    · obtain ⟨text, origin, destination, seq⟩ := m
      have := (Message.isValid_mk_iff text origin destination seq).1 hval
      simp only at h
      rcases h with h | h | h | h
      · exact absurd h this.1
      · exact absurd h this.2.1
      · exact absurd h this.2.2.1
      · omega
  have hnoop : sendMessage c nm m = nm := by simp [sendMessage, hinv]
  exact ⟨hnoop, by rw [hnoop], fun next => by rw [hnoop]⟩

/-- Witness for C10: a message with the placeholder sequence number 0. -/
theorem C10_invalid_send_noop_witness :
    sendMessage qtCodec node1Linked (toNode2 0) = node1Linked :=
  (C10_invalid_send_noop qtCodec node1Linked (toNode2 0)
    (Or.inr (Or.inr (Or.inr (by decide))))).1

end NetworkManager

/-! ### Sequence numbers -/

theorem wrapInt32_of_range (x : Int) (h1 : -2147483648 ≤ x) (h2 : x < 2147483648) :
    wrapInt32 x = x := by
  unfold wrapInt32
  omega

theorem renumber_length : ∀ (ms : List Message) (start : Int),
    (renumber start ms).length = ms.length := by
  intro ms
  induction ms with
  | nil => intro start; rfl
  | cons m ms ih => intro start; simp [renumber, ih]

theorem renumber_getElem? : ∀ (ms : List Message) (start : Int) (k : Nat) (m : Message),
    ms[k]? = some m →
      (renumber start ms)[k]? =
        some (Message.mk m.chatText m.origin m.destination (start + k)) := by
  intro ms
  induction ms with
  | nil => intro start k m h; simp at h
  | cons x ms ih =>
    intro start k m h
    cases k with
    | zero =>
      simp only [List.getElem?_cons_zero, Option.some.injEq] at h
      subst h
      simp [renumber, Message.setSequenceNumber]
    | succ k =>
      simp only [List.getElem?_cons_succ] at h
      simp only [renumber, List.getElem?_cons_succ]
      rw [ih (start + 1) k m h]
      simp only [Option.some.injEq, Message.mk.injEq, true_and]
      push_cast
      omega

theorem renumber_valid : ∀ (ms : List Message) (start : Int), 1 ≤ start →
    (∀ m ∈ ms, m.isValid = true) → ∀ m ∈ renumber start ms, m.isValid = true := by
  intro ms
  induction ms with
  | nil => intro start _ _ m hm; simp [renumber] at hm
  | cons x ms ih =>
    intro start hs hv m hm
    simp only [renumber, List.mem_cons] at hm
    rcases hm with rfl | hm
    · obtain ⟨text, origin, destination, seq⟩ := x
      have hx := (Message.isValid_mk_iff text origin destination seq).1
        (hv _ (List.mem_cons_self _ _))
      exact (Message.isValid_mk_iff text origin destination start).2
        ⟨hx.1, hx.2.1, hx.2.2.1, hs⟩
    · exact ih (start + 1) (by omega) (fun y hy => hv y (List.mem_cons_of_mem _ hy)) m hm

theorem renumber_bounds : ∀ (ms : List Message) (start : Int),
    ∀ m ∈ renumber start ms, start ≤ m.sequenceNumber := by
  intro ms
  induction ms with
  | nil => intro start m hm; simp [renumber] at hm
  | cons x ms ih =>
    intro start m hm
    simp only [renumber, List.mem_cons] at hm
    rcases hm with rfl | hm
    · simp [Message.setSequenceNumber]
    · have := ih (start + 1) m hm
      omega

theorem renumber_increasing : ∀ (ms : List Message) (start : Int),
    List.Pairwise (fun a b : Message => a.sequenceNumber < b.sequenceNumber)
      (renumber start ms) := by
  intro ms
  induction ms with
  | nil => intro start; simp [renumber]
  | cons x ms ih =>
    intro start
    simp only [renumber, List.pairwise_cons]
    refine ⟨?_, ih (start + 1)⟩
    intro b hb
    have := renumber_bounds ms (start + 1) b hb
    simp only [Message.setSequenceNumber]
    omega

namespace NetworkManager

theorem route_withCounter (c : Codec) (nm : NetworkManager) (m : Message) (x : Int) :
    route c { nm with nextSequenceNumber := x } m =
      { route c nm m with nextSequenceNumber := x } := by
  unfold route
  split_ifs
  · rfl
  · simp only [forwardMessage]
    cases nm.neighborSocket with
    | none => rfl
    | some socket => simp only []; split_ifs <;> rfl
  · rfl

theorem foldl_route_withCounter (c : Codec) (x : Int) :
    ∀ (ms : List Message) (nm : NetworkManager),
      ms.foldl (route c) { nm with nextSequenceNumber := x } =
        { ms.foldl (route c) nm with nextSequenceNumber := x } := by
  intro ms
  induction ms with
  | nil => intro nm; rfl
  | cons m ms ih =>
    intro nm
    simp only [List.foldl_cons]
    rw [route_withCounter, ih]

theorem route_connected (c : Codec) (nm : NetworkManager) (m : Message) :
    (route c nm m).connected = nm.connected := by
  unfold route
  split_ifs
  · rfl
  · simp only [forwardMessage, connected]
    cases hs : nm.neighborSocket with
    | none => simp [hs]
    | some socket =>
      simp only []
      split_ifs with hne
      · simp [hs]
      · simp only [ne_eq, Decidable.not_not] at hne
        simp [hne]
  · rfl

theorem route_outbound_connected (c : Codec) (nm : NetworkManager) (m : Message)
    (h : nm.connected = true) :
    (route c nm m).written =
      nm.written ++
        (if m.isValid = true ∧ m.destination ≠ nm.nodeId then frame c m else []) ∧
    (route c nm m).messageQueue = nm.messageQueue := by
  by_cases hv : m.isValid = true
  · rw [route_valid c nm m hv]
    by_cases hd : m.destination = nm.nodeId
    · simp [hd, deliverMessage, written]
    · have hw := written_foldl_forwardMessage c [m] nm h
      simp only [List.foldl_cons, List.foldl_nil, List.flatMap_cons, List.flatMap_nil,
        List.append_nil] at hw
      simp [hd, hv, hw.1, hw.2]
  · simp [route, hv]

theorem route_outbound_down (c : Codec) (nm : NetworkManager) (m : Message)
    (h : nm.connected = false) :
    (route c nm m).messageQueue =
      nm.messageQueue ++ (if m.isValid = true ∧ m.destination ≠ nm.nodeId then [m] else []) ∧
    (route c nm m).neighborSocket = nm.neighborSocket := by
  by_cases hv : m.isValid = true
  · rw [route_valid c nm m hv]
    by_cases hd : m.destination = nm.nodeId
    · simp [hd, deliverMessage]
    · rw [if_neg hd, forwardMessage_down c nm m h]
      simp [hd, hv]
  · simp [route, hv]

theorem foldl_route_outbound_connected (c : Codec) :
    ∀ (ms : List Message) (nm : NetworkManager), nm.connected = true →
      (ms.foldl (route c) nm).written =
        nm.written ++
          (ms.filter (fun m => m.isValid && decide (m.destination ≠ nm.nodeId))).flatMap
            (frame c) ∧
      (ms.foldl (route c) nm).messageQueue = nm.messageQueue := by
  intro ms
  induction ms with
  | nil => intro nm _; simp
  | cons m ms ih =>
    intro nm h
    simp only [List.foldl_cons]
    have hstep := route_outbound_connected c nm m h
    have hrest := ih (route c nm m) (by rw [route_connected]; exact h)
    rw [hrest.1, hrest.2, hstep.1, hstep.2, route_nodeId]
    refine ⟨?_, rfl⟩
    by_cases hc : m.isValid = true ∧ m.destination ≠ nm.nodeId
    · have hf : (m.isValid && decide (m.destination ≠ nm.nodeId)) = true := by
        simp [hc.1, hc.2]
      rw [if_pos hc, List.filter_cons, if_pos hf]
      simp
    · have hf : ¬ (m.isValid && decide (m.destination ≠ nm.nodeId)) = true := by
        simpa using hc
      rw [if_neg hc, List.filter_cons, if_neg hf]
      simp

theorem foldl_route_outbound_down (c : Codec) :
    ∀ (ms : List Message) (nm : NetworkManager), nm.connected = false →
      (ms.foldl (route c) nm).messageQueue =
        nm.messageQueue ++
          ms.filter (fun m => m.isValid && decide (m.destination ≠ nm.nodeId)) ∧
      (ms.foldl (route c) nm).neighborSocket = nm.neighborSocket := by
  intro ms
  induction ms with
  | nil => intro nm _; simp
  | cons m ms ih =>
    intro nm h
    simp only [List.foldl_cons]
    have hstep := route_outbound_down c nm m h
    have hrest := ih (route c nm m) (by rw [route_connected]; exact h)
    rw [hrest.1, hrest.2, hstep.1, hstep.2, route_nodeId]
    refine ⟨?_, rfl⟩
    by_cases hc : m.isValid = true ∧ m.destination ≠ nm.nodeId
    · have hf : (m.isValid && decide (m.destination ≠ nm.nodeId)) = true := by
        simp [hc.1, hc.2]
      rw [if_pos hc, List.filter_cons, if_pos hf]
      simp
    · have hf : ¬ (m.isValid && decide (m.destination ≠ nm.nodeId)) = true := by
        simpa using hc
      rw [if_neg hc, List.filter_cons, if_neg hf]
      simp

theorem sendMessage_valid (c : Codec) (nm : NetworkManager) (m : Message)
    (hv : m.isValid = true) (hs : 1 ≤ nm.nextSequenceNumber) :
    sendMessage c nm m =
      { route c nm (m.setSequenceNumber nm.nextSequenceNumber) with
        nextSequenceNumber := wrapInt32 (nm.nextSequenceNumber + 1) } := by
  have hv' : (m.setSequenceNumber nm.nextSequenceNumber).isValid = true :=
    renumber_valid [m] nm.nextSequenceNumber hs (by simpa using hv) _ (by simp [renumber])
  rw [← route_withCounter, route_valid _ _ _ hv']
  simp [sendMessage, hv]

theorem foldl_sendMessage (c : Codec) :
    ∀ (ms : List Message) (nm : NetworkManager) (start : Int),
      nm.nextSequenceNumber = wrapInt32 start → 1 ≤ start →
      start + ms.length ≤ 2147483648 → (∀ m ∈ ms, m.isValid = true) →
        ms.foldl (sendMessage c) nm =
          { (renumber start ms).foldl (route c) nm with
            nextSequenceNumber := wrapInt32 (start + ms.length) } := by
  intro ms
  induction ms with
  | nil =>
    intro nm start hn _ _ _
    simp only [List.foldl_nil, renumber, List.length_nil, Nat.cast_zero, add_zero]
    rw [← hn]
  | cons m ms ih =>
    intro nm start hn h1 hlen hv
    simp only [List.length_cons, Nat.cast_add, Nat.cast_one] at hlen
    have hstart : nm.nextSequenceNumber = start := by
      rw [hn]; exact wrapInt32_of_range start (by omega) (by omega)
    simp only [List.foldl_cons, renumber]
    rw [sendMessage_valid c nm m (hv m (List.mem_cons_self _ _)) (by omega), hstart]
    rw [ih _ (start + 1) rfl (by omega) (by omega)
      (fun x hx => hv x (List.mem_cons_of_mem _ hx))]
    rw [foldl_route_withCounter]
    simp only [List.length_cons, Nat.cast_add, Nat.cast_one]
    have e : start + 1 + (ms.length : Int) = start + ((ms.length : Int) + 1) := by omega
    rw [e]

end NetworkManager

namespace NetworkManager

theorem foldl_sendMessage_filter (c : Codec) :
    ∀ (calls : List Message) (nm : NetworkManager),
      calls.foldl (sendMessage c) nm =
        (calls.filter (fun m => m.isValid)).foldl (sendMessage c) nm := by
  intro calls
  induction calls with
  | nil => intro nm; rfl
  | cons m calls ih =>
    intro nm
    by_cases hv : m.isValid = true
    · rw [List.filter_cons, if_pos hv]
      simp only [List.foldl_cons]
      exact ih _
    · rw [List.filter_cons, if_neg hv]
      simp only [List.foldl_cons]
      have hnoop : sendMessage c nm m = nm := by simp [sendMessage, hv]
      rw [hnoop]
      exact ih _

/-- C7: sequence assignment. Take any series of calls of `sendMessage` on a
manager whose counter has its constructor value 1, and let `ms` be the valid
messages among them, in call order, fewer than 2^31. The `k`-th valid call
delivers or forwards the caller's message with sequence number `k` in place
of the placeholder and the text, origin and destination unchanged, whatever
the destinations: the messages delivered locally, and the messages written
to the neighbor (link connected) or queued (link down), are the renumbered
messages, in send order. The numbers assigned are at least 1 and strictly
increasing. -/
theorem C7_sequence_assignment (c : Codec) (nm : NetworkManager) (calls ms : List Message)
    (hfresh : nm.nextSequenceNumber = 1)
    (hcalls : calls.filter (fun m => m.isValid) = ms)
    (hlen : ms.length < 2147483648) :
    (∀ (k : Nat) (m : Message), ms[k]? = some m →
      (renumber 1 ms)[k]? =
        some (Message.mk m.chatText m.origin m.destination ((k : Int) + 1))) ∧
    (calls.foldl (sendMessage c) nm).emitted =
      nm.emitted ++
        ((renumber 1 ms).filter (fun m => decide (m.destination = nm.nodeId))).map
          Signal.messageReceived ∧
    (nm.connected = true →
      (calls.foldl (sendMessage c) nm).written =
        nm.written ++
          ((renumber 1 ms).filter (fun m => decide (m.destination ≠ nm.nodeId))).flatMap
            (frame c) ∧
      (calls.foldl (sendMessage c) nm).messageQueue = nm.messageQueue) ∧
    (nm.connected = false →
      (calls.foldl (sendMessage c) nm).messageQueue =
        nm.messageQueue ++
          (renumber 1 ms).filter (fun m => decide (m.destination ≠ nm.nodeId)) ∧
      (calls.foldl (sendMessage c) nm).neighborSocket = nm.neighborSocket) ∧
    (∀ m ∈ renumber 1 ms, 1 ≤ m.sequenceNumber) ∧
    List.Pairwise (fun a b : Message => a.sequenceNumber < b.sequenceNumber)
      (renumber 1 ms) := by
  subst hcalls
  have hv : ∀ m ∈ calls.filter (fun m => m.isValid), m.isValid = true :=
    fun m hm => (List.mem_filter.1 hm).2
  have hfold := (foldl_sendMessage_filter c calls nm).trans
    (foldl_sendMessage c (calls.filter (fun m => m.isValid)) nm 1
      (by rw [hfresh]; exact (wrapInt32_of_range 1 (by omega) (by omega)).symm)
      (le_refl _) (by omega) hv)
  have hvalid := renumber_valid _ 1 (le_refl _) hv
  have hlocal : (renumber 1 (calls.filter (fun m => m.isValid))).filter
        (fun m => m.isValid && decide (m.destination = nm.nodeId)) =
      (renumber 1 (calls.filter (fun m => m.isValid))).filter
        (fun m => decide (m.destination = nm.nodeId)) := by
    apply List.filter_congr
    intro m hm
    simp [hvalid m hm]
  have htransit : (renumber 1 (calls.filter (fun m => m.isValid))).filter
        (fun m => m.isValid && decide (m.destination ≠ nm.nodeId)) =
      (renumber 1 (calls.filter (fun m => m.isValid))).filter
        (fun m => decide (m.destination ≠ nm.nodeId)) := by
    apply List.filter_congr
    intro m hm
    simp [hvalid m hm]
  refine ⟨?_, ?_, ?_, ?_, renumber_bounds _ 1, renumber_increasing _ 1⟩
  · intro k m hk
    rw [renumber_getElem? _ 1 k m hk, add_comm]
  · rw [hfold]
    simp only []
    rw [foldl_route_emitted, hlocal]
  · intro hconn
    rw [hfold]
    have h := foldl_route_outbound_connected c
      (renumber 1 (calls.filter (fun m => m.isValid))) nm hconn
    rw [htransit] at h
    exact ⟨by simpa [written] using h.1, h.2⟩
  · intro hdown
    rw [hfold]
    have h := foldl_route_outbound_down c
      (renumber 1 (calls.filter (fun m => m.isValid))) nm hdown
    rw [htransit] at h
    exact h

/-- Witness for C7: four calls on the freshly constructed `Node1`, to
`Node2` (placeholder 7), an invalid one (placeholder 0), to `Node3`
(placeholder 9) and to `Node2` again (placeholder 1). -/
theorem C7_sequence_assignment_witness :
    (node1.nextSequenceNumber = 1 ∧ node1.connected = false) ∧
    ([toNode2 7, toNode2 0, toNode3 9, toNode2 1].foldl (sendMessage qtCodec) node1).messageQueue =
      node1.messageQueue ++
        (renumber 1 [toNode2 7, toNode3 9, toNode2 1]).filter
          (fun m => decide (m.destination ≠ node1.nodeId)) :=
  ⟨⟨by decide, by decide⟩,
    ((C7_sequence_assignment qtCodec node1 [toNode2 7, toNode2 0, toNode3 9, toNode2 1]
      [toNode2 7, toNode3 9, toNode2 1]
      (by decide) (by decide) (by decide)).2.2.2.1 (by decide)).1⟩

end NetworkManager

/-! ### Local submission -/

namespace SimpleChat

/-- C9: local submission. When the trimmed text is empty or the destination
is empty, `onMessageEntered` leaves the network manager exactly as it was
(no call of `sendMessage`: nothing delivered, forwarded or queued, counter
unchanged) and only appends one report to the window. In every other case
the network manager is the result of one call of `sendMessage` with the
message made of the trimmed text, the local node id as origin, the given
destination and the placeholder sequence number 1. -/
theorem C9_local_submission (c : Codec) (app : SimpleChat) (text destination : QString) :
    (text.trimmed = [] ∨ destination = [] →
      (onMessageEntered c app text destination).networkManager = app.networkManager ∧
      (onMessageEntered c app text destination).nodeId = app.nodeId ∧
      ∃ report : QString,
        (onMessageEntered c app text destination).window =
          app.window ++ [WindowCall.appendMessage report]) ∧
    (¬ (text.trimmed = [] ∨ destination = []) →
      (onMessageEntered c app text destination).networkManager =
        app.networkManager.sendMessage c
          (Message.mk text.trimmed app.nodeId destination 1) ∧
      (onMessageEntered c app text destination).nodeId = app.nodeId) := by
  constructor
  · intro h
    by_cases ht : text.trimmed = []
    · have hte : (QString.isEmpty text.trimmed) = true := by rw [ht]; rfl
      unfold onMessageEntered
      dsimp only
      rw [if_pos hte]
      exact ⟨rfl, rfl, _, rfl⟩
    · have hd : (QString.isEmpty destination) = true := by rw [h.resolve_left ht]; rfl
      have hte : ¬ (QString.isEmpty text.trimmed) = true := by
        rw [(QString.isEmpty_eq_false_iff _).2 ht]; decide
      unfold onMessageEntered
      dsimp only
      rw [if_neg hte, if_pos hd]
      exact ⟨rfl, rfl, _, rfl⟩
  · intro h
    have ht : ¬ (QString.isEmpty text.trimmed) = true := by
      rw [(QString.isEmpty_eq_false_iff _).2 (fun e => h (Or.inl e))]; decide
    have hd : ¬ (QString.isEmpty destination) = true := by
      rw [(QString.isEmpty_eq_false_iff _).2 (fun e => h (Or.inr e))]; decide
    unfold onMessageEntered
    dsimp only
    rw [if_neg ht, if_neg hd]
    exact ⟨rfl, rfl⟩

end SimpleChat

/-! ### Decoding of maps with missing fields -/

/-- C16: decoding tolerates missing fields. `Message::fromVariantMap` is a
total function of the map; a map without `ChatText`, `Origin` or
`Destination` gives the empty string for that field, a map without
`SequenceNumber` gives 0; the empty map gives the default-constructed
message (three empty strings, sequence 0), which is invalid. -/
theorem C16_missing_fields :
    (∀ map : QVariantMap, QMap.find map (qstr "ChatText") = none →
      (Message.fromVariantMap map).chatText = []) ∧
    (∀ map : QVariantMap, QMap.find map (qstr "Origin") = none →
      (Message.fromVariantMap map).origin = []) ∧
    (∀ map : QVariantMap, QMap.find map (qstr "Destination") = none →
      (Message.fromVariantMap map).destination = []) ∧
    (∀ map : QVariantMap, QMap.find map (qstr "SequenceNumber") = none →
      (Message.fromVariantMap map).sequenceNumber = 0) ∧
    Message.fromVariantMap [] = Message.default ∧
    Message.default = Message.mk [] [] [] 0 ∧
    (Message.fromVariantMap []).isValid = false := by
  refine ⟨?_, ?_, ?_, ?_, rfl, rfl, rfl⟩ <;>
    · intro map h
      simp [Message.fromVariantMap, QMap.value, h, QVariant.toString, QVariant.toInt]

/-! ### The outbound queue -/

namespace NetworkManager

/-- C18: outbound queueing. For every message, `forwardMessage` on a
manager without a neighbor socket, or whose socket is not in the connected
state, writes nothing and appends the message at the tail of the outbound
queue, every other part of the manager (the earlier queue entries and their
order included) staying as it was; on a connected socket it writes the
frame of the message at once and leaves the queue unchanged. -/
theorem C18_outbound_queueing (c : Codec) (nm : NetworkManager) (m : Message) :
    (nm.connected = false →
      forwardMessage c nm m = { nm with messageQueue := nm.messageQueue ++ [m] } ∧
      (forwardMessage c nm m).written = nm.written ∧
      (forwardMessage c nm m).messageQueue = nm.messageQueue ++ [m]) ∧
    (nm.connected = true →
      (forwardMessage c nm m).written = nm.written ++ frame c m ∧
      (forwardMessage c nm m).messageQueue = nm.messageQueue) := by
  constructor
  · intro h
    rw [forwardMessage_down c nm m h]
    exact ⟨rfl, rfl, rfl⟩
  · intro h
    have hw := written_foldl_forwardMessage c [m] nm h
    simpa using hw

end NetworkManager

/-! ### The ring successor -/

namespace NetworkManager

theorem indexOf_of_first (ports : List Int) (p : Int) (h : ports.indexOf p < ports.length) :
    indexOf ports p = (ports.indexOf p : Int) := by
  simp [indexOf, h]

theorem indexOf_of_absent (ports : List Int) (p : Int) (h : p ∉ ports) :
    indexOf ports p = -1 := by
  have : ¬ ports.indexOf p < ports.length := by
    rw [List.indexOf_lt_length]; exact h
  simp [indexOf, this]

theorem setRingTopology_of_first (nm : NetworkManager) (ports : List Int) (p : Int)
    (succ : Int) (h : ports.indexOf p < ports.length)
    (hsucc : ports[(ports.indexOf p + 1) % ports.length]? = some succ) :
    setRingTopology nm ports p =
      if succ ≠ p then
        { nm with
          ringPorts := ports
          currentPortIndex := (ports.indexOf p : Int)
          singleShots := nm.singleShots ++ [(2000, succ)] }
      else
        { nm with ringPorts := ports, currentPortIndex := (ports.indexOf p : Int) } := by
  have hne : ports ≠ [] := by
    intro e; rw [e] at h; simp at h
  have hidx : ((ports.indexOf p : Int) + 1) % (ports.length : Int) =
      (((ports.indexOf p + 1) % ports.length : Nat) : Int) := by
    push_cast; rfl
  have hget : ports.getD ((ports.indexOf p + 1) % ports.length) 0 = succ := by
    rw [List.getD_eq_getElem?_getD, hsucc]; rfl
  have hcond : (ports.indexOf p : Int) ≠ -1 ∧ ports ≠ [] := ⟨by omega, hne⟩
  unfold setRingTopology
  simp only [indexOf_of_first ports p h, hidx, Int.toNat_ofNat, hget]
  rw [if_pos hcond]

theorem setRingTopology_of_absent (nm : NetworkManager) (ports : List Int) (p : Int)
    (h : p ∉ ports) :
    setRingTopology nm ports p = { nm with ringPorts := ports, currentPortIndex := -1 } := by
  unfold setRingTopology
  simp only [indexOf_of_absent ports p h]
  rw [if_neg (by simp)]

/-- C11: the ring successor. When the local port `p` occurs in the port
list, first at index `i`, `setRingTopology` records `i` and takes the entry
at index `(i + 1) mod length` as successor; it schedules one connection to
that entry (after 2000 ms) exactly when the entry differs from `p`. A list
with the single entry `p`, a list without `p` and the empty list schedule
nothing. When the scheduled request fires, the neighbor the manager
connects to is that entry. With the ports 9001..9004 the successor of 9004
is 9001 (wrap to index 0) and the successor of 9002 is 9003. -/
theorem C11_ring_successor :
    (∀ (nm : NetworkManager) (ports : List Int) (p : Int) (i : Nat) (succ : Int),
      ports.indexOf p = i → i < ports.length →
      ports[(i + 1) % ports.length]? = some succ →
        (setRingTopology nm ports p).currentPortIndex = (i : Int) ∧
        (succ ≠ p →
          (setRingTopology nm ports p).singleShots = nm.singleShots ++ [(2000, succ)]) ∧
        (succ = p → (setRingTopology nm ports p).singleShots = nm.singleShots)) ∧
    (∀ (nm : NetworkManager) (p : Int),
      (setRingTopology nm [p] p).singleShots = nm.singleShots) ∧
    (∀ (nm : NetworkManager) (ports : List Int) (p : Int), p ∉ ports →
      (setRingTopology nm ports p).singleShots = nm.singleShots ∧
      (setRingTopology nm ports p).currentPortIndex = -1) ∧
    (∀ (nm : NetworkManager) (p : Int),
      (setRingTopology nm [] p).singleShots = nm.singleShots) ∧
    (∀ (nm : NetworkManager) (ports : List Int) (p succ : Int) (ptr : Nat),
      (setRingTopology nm ports p).singleShots = nm.singleShots ++ [(2000, succ)] →
        (singleShotTimeout (setRingTopology nm ports p) nm.singleShots.length ptr).neighborPort =
          succ ∧
        (singleShotTimeout (setRingTopology nm ports p) nm.singleShots.length ptr).singleShots =
          nm.singleShots) ∧
    (setRingTopology NetworkManager.new [9001, 9002, 9003, 9004] 9004).singleShots =
      [(2000, 9001)] ∧
    (setRingTopology NetworkManager.new [9001, 9002, 9003, 9004] 9002).singleShots =
      [(2000, 9003)] := by
  refine ⟨?_, ?_, ?_, ?_, ?_, by decide, by decide⟩
  · intro nm ports p i succ hi hlt hsucc
    subst hi
    rw [setRingTopology_of_first nm ports p succ hlt hsucc]
    by_cases hs : succ = p
    · simp [hs]
    · simp [hs]
  · intro nm p
    rw [setRingTopology_of_first nm [p] p p (by simp) (by simp)]
    simp
  · intro nm ports p h
    rw [setRingTopology_of_absent nm ports p h]
    exact ⟨rfl, rfl⟩
  · intro nm p
    rw [setRingTopology_of_absent nm [] p (by simp)]
  · intro nm ports p succ ptr h
    unfold singleShotTimeout
    rw [h]
    simp [connectToNeighbor, List.eraseIdx_append_of_length_le]

end NetworkManager

/-! ### The connection supervisor -/

namespace NetworkManager

theorem forwardMessage_queue (c : Codec) (nm : NetworkManager) (m : Message) :
    ∃ added, (forwardMessage c nm m).messageQueue = nm.messageQueue ++ added := by
  unfold forwardMessage
  cases nm.neighborSocket with
  | none => exact ⟨[m], rfl⟩
  | some socket =>
    simp only []
    split_ifs
    · exact ⟨[m], rfl⟩
    · exact ⟨[], (List.append_nil _).symm⟩

theorem route_queue (c : Codec) (nm : NetworkManager) (m : Message) :
    ∃ added, (route c nm m).messageQueue = nm.messageQueue ++ added := by
  unfold route
  split_ifs
  · exact ⟨[], (List.append_nil _).symm⟩
  · exact forwardMessage_queue c nm m
  · exact ⟨[], (List.append_nil _).symm⟩

theorem processLoop_queue (c : Codec) :
    ∀ (fuel : Nat) (nm : NetworkManager) (buffer : QByteArray),
      ∃ added, (processLoop c fuel nm buffer).1.messageQueue = nm.messageQueue ++ added := by
  intro fuel
  induction fuel with
  | zero => intro nm buffer; exact ⟨[], (List.append_nil _).symm⟩
  | succ n ih =>
    intro nm buffer
    rw [processLoop_step]
    split_ifs
    · exact ⟨[], (List.append_nil _).symm⟩
    · obtain ⟨a1, h1⟩ := route_queue c nm
        (Message.readFrom c ((buffer.drop 4).take (readUInt32 buffer)))
      obtain ⟨a2, h2⟩ := ih
        (route c nm (Message.readFrom c ((buffer.drop 4).take (readUInt32 buffer))))
        ((buffer.drop 4).drop (readUInt32 buffer))
      exact ⟨a1 ++ a2, by rw [h2, h1, List.append_assoc]⟩
    · exact ⟨[], (List.append_nil _).symm⟩

theorem sendMessage_queue (c : Codec) (nm : NetworkManager) (m : Message) :
    ∃ added, (sendMessage c nm m).messageQueue = nm.messageQueue ++ added := by
  by_cases hv : m.isValid = true
  · by_cases hd : m.destination = nm.nodeId
    · refine ⟨[], ?_⟩
      simp [sendMessage, hv, hd, Message.setSequenceNumber, deliverMessage]
    · have h : sendMessage c nm m =
          forwardMessage c
            { nm with nextSequenceNumber := wrapInt32 (nm.nextSequenceNumber + 1) }
            (m.setSequenceNumber nm.nextSequenceNumber) := by
        simp [sendMessage, hv, hd, Message.setSequenceNumber]
      rw [h]
      exact forwardMessage_queue c _ _
  · refine ⟨[], ?_⟩
    simp [sendMessage, hv]

theorem onNewConnection_queue (clients : List Nat) :
    ∀ nm : NetworkManager, (onNewConnection nm clients).messageQueue = nm.messageQueue := by
  induction clients with
  | nil => intro nm; rfl
  | cons x xs ih =>
    intro nm
    simp only [onNewConnection, List.foldl_cons] at ih ⊢
    rw [ih]

theorem socketClosed_queue (nm : NetworkManager) (socket : Nat) :
    (socketClosed nm socket).messageQueue = nm.messageQueue := by
  unfold socketClosed
  cases nm.neighborSocket with
  | none => rfl
  | some s => simp only []; split_ifs <;> rfl

theorem onDisconnected_queue (nm : NetworkManager) (socket : Nat) :
    (onDisconnected nm socket).messageQueue = nm.messageQueue := by
  unfold onDisconnected
  dsimp only
  split_ifs <;> rfl

theorem onConnectionError_queue (nm : NetworkManager) (socket : Nat) :
    (onConnectionError nm socket).messageQueue = nm.messageQueue := by
  unfold onConnectionError
  split_ifs <;> rfl

theorem step_queue (c : Codec) (nm : NetworkManager) (e : Event) :
    ∃ added, (step c nm e).messageQueue = nm.messageQueue ++ added := by
  cases e with
  | startServer port listening =>
    refine ⟨[], ?_⟩
    simp only [step, startServer]
    split_ifs <;> simp
  | setNodeId nodeId => exact ⟨[], (List.append_nil _).symm⟩
  | addPeer peerId port => exact ⟨[], (List.append_nil _).symm⟩
  | setRingTopology ports currentPort =>
    refine ⟨[], ?_⟩
    simp only [step, setRingTopology]
    split_ifs <;> simp
  | connectToNeighbor host port ptr => exact ⟨[], (List.append_nil _).symm⟩
  | sendMessage message => exact sendMessage_queue c nm message
  | newConnection clients =>
    exact ⟨[], by simp only [step, onNewConnection_queue, List.append_nil]⟩
  | readyRead socket data =>
    obtain ⟨a, h⟩ := processLoop_queue c
      (QMap.value nm.socketBuffers socket [] ++ data).length nm
      (QMap.value nm.socketBuffers socket [] ++ data)
    exact ⟨a, h⟩
  | connected =>
    refine ⟨[], ?_⟩
    simp only [step, socketConnected]
    cases nm.neighborSocket <;> simp
  | disconnected socket =>
    exact ⟨[], by
      simp only [step, onDisconnected_queue, socketClosed_queue, List.append_nil]⟩
  | errorOccurred socket =>
    exact ⟨[], by
      simp only [step, onConnectionError_queue, socketClosed_queue, List.append_nil]⟩
  | retryTimeout ptr =>
    refine ⟨[], ?_⟩
    simp only [step, retryTimeout, retryConnection, connectToNeighbor]
    cases nm.retryTimer with
    | none => simp
    | some t => simp only []; split_ifs <;> simp
  | singleShotTimeout index ptr =>
    refine ⟨[], ?_⟩
    simp only [step, singleShotTimeout, connectToNeighbor]
    cases nm.singleShots[index]? <;> simp

end NetworkManager

namespace NetworkManager

/-- C12, the code when the neighbor link comes up: the `connected()` signal
of the socket only raises `connectionEstablished`; it writes nothing and
leaves the outbound queue as it is. No event at all removes an entry from
the queue: after every event the old queue is an initial part of the new
one. On `Node1`, two messages forwarded while the link was down are still
queued, and nothing has been written, after the link is connected. -/
theorem C12_queue_not_flushed :
    (∀ nm : NetworkManager,
      (socketConnected nm).messageQueue = nm.messageQueue ∧
      (socketConnected nm).written = nm.written) ∧
    (∀ (c : Codec) (nm : NetworkManager) (e : Event),
      ∃ added, (step c nm e).messageQueue = nm.messageQueue ++ added) ∧
    (run qtCodec node1
      [Event.sendMessage (toNode2 1), Event.sendMessage (toNode3 1),
        Event.connectToNeighbor (qstr "localhost") 9002 1, Event.connected]).messageQueue =
      [toNode2 1, toNode3 2] ∧
    (run qtCodec node1
      [Event.sendMessage (toNode2 1), Event.sendMessage (toNode3 1),
        Event.connectToNeighbor (qstr "localhost") 9002 1, Event.connected]).written = [] ∧
    (run qtCodec node1
      [Event.sendMessage (toNode2 1), Event.sendMessage (toNode3 1),
        Event.connectToNeighbor (qstr "localhost") 9002 1, Event.connected]).connected = true ∧
    (run qtCodec node1
      [Event.sendMessage (toNode2 1), Event.sendMessage (toNode3 1),
        Event.connectToNeighbor (qstr "localhost") 9002 1, Event.connected]).emitted =
      [Signal.connectionEstablished] := by
  refine ⟨?_, step_queue, by decide, by decide, by decide, by decide⟩
  intro nm
  cases h : nm.neighborSocket with
  | none => simp [socketConnected, written, h]
  | some socket => simp [socketConnected, written, h]

/-- C13: the single retry timer. While the manager has the neighbor socket
`sock`: a `disconnected()` signal from it starts the retry timer with 3000
ms and creates no other timer; a second `disconnected()` or a connection
error signal arriving while the timer runs leaves one running timer of 3000
ms (the same timer, started again) and still creates no other timer; when
the timer then fires, `retryConnection` is called once, the timer is no
longer running, and a further timeout cannot occur (it would change
nothing). In every state reachable from the constructor at most one retry
is pending. -/
theorem C13_single_retry_timer (c : Codec) (nm : NetworkManager) (sock : QTcpSocket)
    (second : Event) (ptr : Nat) (hs : nm.neighborSocket = some sock)
    (hsecond : second = Event.disconnected sock.ptr ∨ second = Event.errorOccurred sock.ptr) :
    (step c nm (Event.disconnected sock.ptr)).retryTimer = some 3000 ∧
    (step c nm (Event.disconnected sock.ptr)).pendingRetries = 1 ∧
    (step c nm (Event.disconnected sock.ptr)).singleShots = nm.singleShots ∧
    (run c nm [Event.disconnected sock.ptr, second]).retryTimer = some 3000 ∧
    (run c nm [Event.disconnected sock.ptr, second]).pendingRetries = 1 ∧
    (run c nm [Event.disconnected sock.ptr, second]).singleShots = nm.singleShots ∧
    run c nm [Event.disconnected sock.ptr, second, Event.retryTimeout ptr] =
      retryConnection
        { run c nm [Event.disconnected sock.ptr, second] with retryTimer := none } ptr ∧
    (run c nm [Event.disconnected sock.ptr, second, Event.retryTimeout ptr]).pendingRetries =
      0 ∧
    (∀ later : Nat,
      run c nm [Event.disconnected sock.ptr, second, Event.retryTimeout ptr,
          Event.retryTimeout later] =
        run c nm [Event.disconnected sock.ptr, second, Event.retryTimeout ptr]) ∧
    (∀ events : List Event, (run c NetworkManager.new events).pendingRetries ≤ 1) := by
  have h1 : step c nm (Event.disconnected sock.ptr) =
      { nm with
        neighborSocket := some { sock with state := SocketState.UnconnectedState }
        socketBuffers := QMap.remove nm.socketBuffers sock.ptr
        emitted := nm.emitted ++ [Signal.connectionLost]
        retryTimer := some 3000 } := by
    simp [step, onDisconnected, socketClosed, hs]
  have e2 : run c nm [Event.disconnected sock.ptr, second] =
      step c (step c nm (Event.disconnected sock.ptr)) second := rfl
  have h2 : (run c nm [Event.disconnected sock.ptr, second]).retryTimer = some 3000 ∧
      (run c nm [Event.disconnected sock.ptr, second]).singleShots = nm.singleShots := by
    rw [e2, h1]
    rcases hsecond with rfl | rfl
    · simp [step, onDisconnected, socketClosed]
    · simp [step, onConnectionError, socketClosed]
  have h3 : (run c nm [Event.disconnected sock.ptr, second]).retryTimer = some 3000 := h2.1
  have h4 : run c nm [Event.disconnected sock.ptr, second, Event.retryTimeout ptr] =
      retryConnection
        { run c nm [Event.disconnected sock.ptr, second] with retryTimer := none } ptr := by
    have e : run c nm [Event.disconnected sock.ptr, second, Event.retryTimeout ptr] =
        step c (run c nm [Event.disconnected sock.ptr, second]) (Event.retryTimeout ptr) := by
      simp [run]
    rw [e]
    simp only [step, retryTimeout, h3]
  have h5 : (run c nm [Event.disconnected sock.ptr, second, Event.retryTimeout ptr]).retryTimer =
      none := by
    rw [h4]
    simp only [retryConnection, connectToNeighbor]
    split_ifs <;> rfl
  refine ⟨by rw [h1], by rw [h1]; rfl, by rw [h1], h3, ?_, ?_, h4, ?_, ?_, ?_⟩
  · simp only [pendingRetries, h3]
  · exact h2.2
  · simp only [pendingRetries, h5]
  · intro later
    have e : run c nm [Event.disconnected sock.ptr, second, Event.retryTimeout ptr,
          Event.retryTimeout later] =
        step c (run c nm [Event.disconnected sock.ptr, second, Event.retryTimeout ptr])
          (Event.retryTimeout later) := by
      simp [run]
    rw [e]
    simp only [step, retryTimeout, h5]
  · intro events
    unfold pendingRetries
    cases (run c NetworkManager.new events).retryTimer <;> simp

/-- Witness for C13: `Node2` with a connected neighbor socket gets
`disconnected()` and then a connection error from that socket. -/
theorem C13_single_retry_timer_witness :
    (run qtCodec node2Linked
      [Event.disconnected linkedSocket.ptr, Event.errorOccurred linkedSocket.ptr]).retryTimer =
      some 3000 ∧
    (run qtCodec node2Linked
      [Event.disconnected linkedSocket.ptr, Event.errorOccurred linkedSocket.ptr]).singleShots =
      node2Linked.singleShots :=
  have h := C13_single_retry_timer qtCodec node2Linked linkedSocket
    (Event.errorOccurred linkedSocket.ptr) 2 (by decide) (Or.inr rfl)
  ⟨h.2.2.2.1, h.2.2.2.2.2.1⟩

/-- C14, the code on a connection error: `onConnectionError` emits no
signal at all, for every manager and every sender, so a failure that is
reported only through the error signal (a refused connection attempt) starts
the retry timer without `connectionLost`; `onDisconnected` for the neighbor
socket does emit `connectionLost`. On `Node1`, after a connection attempt
that fails, the timer runs and nothing has been emitted; after a
`disconnected()` signal instead, `connectionLost` has been emitted. -/
theorem C14_error_without_connectionLost :
    (∀ (nm : NetworkManager) (socket : Nat),
      (onConnectionError nm socket).emitted = nm.emitted) ∧
    (∀ (c : Codec) (nm : NetworkManager) (socket : Nat),
      (step c nm (Event.errorOccurred socket)).emitted = nm.emitted) ∧
    (∀ (nm : NetworkManager) (sock : QTcpSocket), nm.neighborSocket = some sock →
      (onDisconnected nm sock.ptr).emitted = nm.emitted ++ [Signal.connectionLost] ∧
      (onDisconnected nm sock.ptr).retryTimer = some 3000 ∧
      (onConnectionError nm sock.ptr).retryTimer = some 3000) ∧
    (run qtCodec node1
      [Event.connectToNeighbor (qstr "localhost") 9002 1, Event.errorOccurred 1]).emitted =
      [] ∧
    (run qtCodec node1
      [Event.connectToNeighbor (qstr "localhost") 9002 1, Event.errorOccurred 1]).retryTimer =
      some 3000 ∧
    (run qtCodec node1
      [Event.connectToNeighbor (qstr "localhost") 9002 1, Event.disconnected 1]).emitted =
      [Signal.connectionLost] := by
  have herr : ∀ (nm : NetworkManager) (socket : Nat),
      (onConnectionError nm socket).emitted = nm.emitted := by
    intro nm socket
    unfold onConnectionError
    split_ifs <;> rfl
  have hclosed : ∀ (nm : NetworkManager) (socket : Nat),
      (socketClosed nm socket).emitted = nm.emitted := by
    intro nm socket
    unfold socketClosed
    cases nm.neighborSocket with
    | none => rfl
    | some s => simp only []; split_ifs <;> rfl
  refine ⟨herr, ?_, ?_, by decide, by decide, by decide⟩
  · intro c nm socket
    simp only [step, herr, hclosed]
  · intro nm sock hs
    simp [onDisconnected, onConnectionError, hs]

end NetworkManager

/-! ### Bad frames -/

namespace NetworkManager

theorem drain_wire (c : Codec) (rest : QByteArray) :
    ∀ (payloads : List QByteArray) (nm : NetworkManager),
      (∀ p ∈ payloads, p.length < 4294967296) →
        drain c nm (wire payloads ++ rest) =
          drain c (payloads.foldl (fun st p => route c st (Message.readFrom c p)) nm) rest := by
  intro payloads
  induction payloads with
  | nil => intro nm _; rfl
  | cons p ps ih =>
    intro nm h
    have hp := h p (List.mem_cons_self _ _)
    have e : wire (p :: ps) ++ rest = writeUInt32 p.length ++ p ++ (wire ps ++ rest) := by
      simp [wire, List.append_assoc]
    rw [e, drain_frame c nm p _ hp, ih _ (fun x hx => h x (List.mem_cons_of_mem _ hx))]
    rfl

theorem foldl_route_socketBuffers (c : Codec) :
    ∀ (payloads : List QByteArray) (nm : NetworkManager),
      (payloads.foldl (fun st p => route c st (Message.readFrom c p)) nm).socketBuffers =
        nm.socketBuffers := by
  intro payloads
  induction payloads with
  | nil => intro nm; rfl
  | cons p ps ih => intro nm; simp only [List.foldl_cons]; rw [ih, route_socketBuffers]

theorem route_invalid (c : Codec) (nm : NetworkManager) (m : Message)
    (h : m.isValid = false) : route c nm m = nm := by
  simp [route, h]

theorem readFrom_invalid_of_unreadable (c : Codec) (payload : QByteArray)
    (h : c.read payload = [] ∨ (Message.readFrom c payload).isValid = false) :
    (Message.readFrom c payload).isValid = false := by
  rcases h with h | h
  · simp only [Message.readFrom, h]; rfl
  · exact h

/-- C15: a bad frame is inert. Take a complete frame whose payload cannot
be read (the stream leaves the map empty) or decodes to an invalid message.
Received alone on an empty connection buffer it changes nothing in the
manager (nothing delivered, written or queued) and the buffer is empty
again, all its bytes consumed; followed by any bytes `rest`, exactly the 4
bytes of its header and the bytes of its payload are consumed, the
processing going on with `rest`; and placed after any complete frames
`before`, the manager ends in the same state as if the bad frame were not in
the stream. -/
theorem C15_bad_frame_inert (c : Codec) (nm : NetworkManager) (socket : Nat)
    (before : List QByteArray) (bad rest : QByteArray)
    (hbuf : nm.bufferOf socket = [])
    (hbefore : ∀ p ∈ before, p.length < 4294967296)
    (hlen : bad.length < 4294967296)
    (hbad : c.read bad = [] ∨ (Message.readFrom c bad).isValid = false) :
    processReceivedData c nm socket (writeUInt32 bad.length ++ bad) =
      { nm with socketBuffers := QMap.insert nm.socketBuffers socket [] } ∧
    processReceivedData c nm socket (writeUInt32 bad.length ++ bad ++ rest) =
      processReceivedData c nm socket rest ∧
    processReceivedData c nm socket (wire before ++ (writeUInt32 bad.length ++ bad ++ rest)) =
      processReceivedData c nm socket (wire before ++ rest) := by
  have hinv := readFrom_invalid_of_unreadable c bad hbad
  have hskip : ∀ st : NetworkManager,
      drain c st (writeUInt32 bad.length ++ bad ++ rest) = drain c st rest := by
    intro st
    rw [drain_frame c st bad rest hlen, route_invalid c st _ hinv]
  refine ⟨?_, ?_, ?_⟩
  · have h := processReceivedData_frame c nm socket bad [] hbuf hlen
    rw [List.append_nil, route_invalid c nm _ hinv] at h
    rw [h, processReceivedData_nil c nm socket hbuf]
  · rw [processReceivedData_frame c nm socket bad rest hbuf hlen, route_invalid c nm _ hinv]
  · rw [processReceivedData_eq, processReceivedData_eq, hbuf, List.nil_append, List.nil_append,
      drain_wire c _ before nm hbefore, drain_wire c _ before nm hbefore, hskip]

/-- Witness for C15: three garbage bytes framed between two good frames
for `Node2`. -/
theorem C15_bad_frame_inert_witness :
    (qtCodec.read [1, 2, 3] = []) ∧
    processReceivedData qtCodec node2 7
        (wire [(toNode2 1).writeTo qtCodec] ++
          (writeUInt32 ([1, 2, 3] : QByteArray).length ++ [1, 2, 3] ++
            frame qtCodec (toNode2 2))) =
      processReceivedData qtCodec node2 7
        (wire [(toNode2 1).writeTo qtCodec] ++ frame qtCodec (toNode2 2)) :=
  ⟨by decide,
    (C15_bad_frame_inert qtCodec node2 7 [(toNode2 1).writeTo qtCodec] [1, 2, 3]
      (frame qtCodec (toNode2 2)) (by decide) (by decide) (by decide)
      (Or.inl (by decide))).2.2⟩

end NetworkManager

/-! ### Hops in a ring -/

namespace NetworkManager

theorem processReceivedData_one (c : Codec) (nm : NetworkManager) (socket : Nat) (m : Message)
    (hbuf : nm.bufferOf socket = []) (hv : m.isValid = true)
    (hlen : (m.writeTo c).length < 4294967296)
    (hrt : Message.readFrom c (m.writeTo c) = m) :
    processReceivedData c nm socket (frame c m) =
      { route c nm m with socketBuffers := QMap.insert nm.socketBuffers socket [] } := by
  have h := processReceivedData_frames c nm socket [m] hbuf
    (by intro x hx; simp only [List.mem_singleton] at hx; subst hx; exact ⟨hlen, hrt⟩)
  simpa using h

theorem written_withBuffers (nm : NetworkManager) (x : QMap Nat QByteArray) :
    ({ nm with socketBuffers := x } : NetworkManager).written = nm.written := rfl

theorem connected_withBuffers (nm : NetworkManager) (x : QMap Nat QByteArray) :
    ({ nm with socketBuffers := x } : NetworkManager).connected = nm.connected := rfl

/-- A node that is not the destination and whose link is connected passes
the frame on: nothing delivered, the same frame written, and the node is
ready for the next frame as before. -/
theorem relay_frame (c : Codec) (nm : NetworkManager) (socket : Nat) (m : Message)
    (hconn : nm.connected = true) (hbuf : nm.bufferOf socket = [])
    (hd : nm.nodeId ≠ m.destination) (hv : m.isValid = true)
    (hlen : (m.writeTo c).length < 4294967296)
    (hrt : Message.readFrom c (m.writeTo c) = m) :
    (processReceivedData c nm socket (frame c m)).emitted = nm.emitted ∧
    (processReceivedData c nm socket (frame c m)).written = nm.written ++ frame c m ∧
    (processReceivedData c nm socket (frame c m)).messageQueue = nm.messageQueue ∧
    (processReceivedData c nm socket (frame c m)).connected = true ∧
    (processReceivedData c nm socket (frame c m)).bufferOf socket = [] ∧
    (processReceivedData c nm socket (frame c m)).nodeId = nm.nodeId ∧
    output nm (processReceivedData c nm socket (frame c m)) = frame c m := by
  rw [processReceivedData_one c nm socket m hbuf hv hlen hrt]
  have hne : ¬ (m.isValid = true ∧ m.destination = nm.nodeId) := fun h => hd h.2.symm
  have hyes : m.isValid = true ∧ m.destination ≠ nm.nodeId := ⟨hv, fun h => hd h.symm⟩
  have hem := route_emitted c nm m
  rw [if_neg hne, List.append_nil] at hem
  have hout := route_outbound_connected c nm m hconn
  rw [if_pos hyes] at hout
  have hw : ({ route c nm m with
      socketBuffers := QMap.insert nm.socketBuffers socket [] } : NetworkManager).written =
      nm.written ++ frame c m := by
    rw [written_withBuffers]; exact hout.1
  refine ⟨hem, hw, hout.2, ?_, ?_, route_nodeId c nm m, ?_⟩
  · rw [connected_withBuffers, route_connected]; exact hconn
  · simp [bufferOf, QMap.value_insert_self]
  · unfold output
    rw [hw]
    simp

/-- The destination node delivers the frame and passes nothing on. -/
theorem deliver_frame (c : Codec) (nm : NetworkManager) (socket : Nat) (m : Message)
    (hbuf : nm.bufferOf socket = [])
    (hd : m.destination = nm.nodeId) (hv : m.isValid = true)
    (hlen : (m.writeTo c).length < 4294967296)
    (hrt : Message.readFrom c (m.writeTo c) = m) :
    (processReceivedData c nm socket (frame c m)).emitted =
      nm.emitted ++ [Signal.messageReceived m] ∧
    (processReceivedData c nm socket (frame c m)).written = nm.written ∧
    (processReceivedData c nm socket (frame c m)).messageQueue = nm.messageQueue := by
  rw [processReceivedData_one c nm socket m hbuf hv hlen hrt, route_valid c nm m hv, if_pos hd]
  exact ⟨rfl, rfl, rfl⟩

/-- C17: the three-node ring A -> B -> C -> A. A submits a valid message
addressed to C while its counter is positive; A and B have their successor
link connected. A delivers nothing and writes the frame of the message,
numbered by its counter, to B; B, reading those bytes, delivers nothing and
writes the same frame to C; C, reading B's bytes, delivers exactly that
message to its consumer (text, origin A and sequence number as A sent them)
and writes and queues nothing. -/
theorem C17_three_node_ring (codec : Codec) (a b c : NetworkManager) (inB inC : Nat)
    (m : Message)
    (ha : a.connected = true) (hb : b.connected = true)
    (hbufB : b.bufferOf inB = []) (hbufC : c.bufferOf inC = [])
    (hac : a.nodeId ≠ c.nodeId) (hbc : b.nodeId ≠ c.nodeId)
    (hv : m.isValid = true) (horigin : m.origin = a.nodeId) (hdest : m.destination = c.nodeId)
    (hseq : 1 ≤ a.nextSequenceNumber)
    (hlen : ((m.setSequenceNumber a.nextSequenceNumber).writeTo codec).length < 4294967296)
    (hrt : Message.readFrom codec ((m.setSequenceNumber a.nextSequenceNumber).writeTo codec) =
      m.setSequenceNumber a.nextSequenceNumber) :
    ((sendMessage codec a m).emitted = a.emitted ∧
      output a (sendMessage codec a m) =
        frame codec (Message.mk m.chatText a.nodeId c.nodeId a.nextSequenceNumber)) ∧
    ((processReceivedData codec b inB (output a (sendMessage codec a m))).emitted = b.emitted ∧
      output b (processReceivedData codec b inB (output a (sendMessage codec a m))) =
        frame codec (Message.mk m.chatText a.nodeId c.nodeId a.nextSequenceNumber)) ∧
    ((processReceivedData codec c inC
        (output b (processReceivedData codec b inB (output a (sendMessage codec a m))))).emitted =
        c.emitted ++
          [Signal.messageReceived
            (Message.mk m.chatText a.nodeId c.nodeId a.nextSequenceNumber)] ∧
      (processReceivedData codec c inC
        (output b (processReceivedData codec b inB (output a (sendMessage codec a m))))).written =
        c.written ∧
      (processReceivedData codec c inC
        (output b (processReceivedData codec b inB
          (output a (sendMessage codec a m))))).messageQueue = c.messageQueue) := by
  have hsent : m.setSequenceNumber a.nextSequenceNumber =
      Message.mk m.chatText a.nodeId c.nodeId a.nextSequenceNumber := by
    simp [Message.setSequenceNumber, horigin, hdest]
  rw [hsent] at hlen hrt
  have hvs : (Message.mk m.chatText a.nodeId c.nodeId a.nextSequenceNumber).isValid = true := by
    rw [← hsent]
    exact renumber_valid [m] _ hseq (by simpa using hv) _ (by simp [renumber])
  have hsend : sendMessage codec a m =
      { route codec a (Message.mk m.chatText a.nodeId c.nodeId a.nextSequenceNumber) with
        nextSequenceNumber := wrapInt32 (a.nextSequenceNumber + 1) } := by
    rw [sendMessage_valid codec a m hv hseq, hsent]
  have hne : ¬ ((Message.mk m.chatText a.nodeId c.nodeId a.nextSequenceNumber).isValid = true ∧
      (Message.mk m.chatText a.nodeId c.nodeId a.nextSequenceNumber).destination = a.nodeId) :=
    fun h => hac h.2.symm
  have hyes : (Message.mk m.chatText a.nodeId c.nodeId a.nextSequenceNumber).isValid = true ∧
      (Message.mk m.chatText a.nodeId c.nodeId a.nextSequenceNumber).destination ≠ a.nodeId :=
    ⟨hvs, fun h => hac h.symm⟩
  have hem := route_emitted codec a (Message.mk m.chatText a.nodeId c.nodeId a.nextSequenceNumber)
  rw [if_neg hne, List.append_nil] at hem
  have hout := route_outbound_connected codec a
    (Message.mk m.chatText a.nodeId c.nodeId a.nextSequenceNumber) ha
  rw [if_pos hyes] at hout
  have hA : output a (sendMessage codec a m) =
      frame codec (Message.mk m.chatText a.nodeId c.nodeId a.nextSequenceNumber) := by
    unfold output
    rw [hsend]
    have : ({ route codec a (Message.mk m.chatText a.nodeId c.nodeId a.nextSequenceNumber) with
        nextSequenceNumber := wrapInt32 (a.nextSequenceNumber + 1) } : NetworkManager).written =
        a.written ++ frame codec (Message.mk m.chatText a.nodeId c.nodeId a.nextSequenceNumber) :=
      hout.1
    rw [this]
    simp
  have hB := relay_frame codec b inB
    (Message.mk m.chatText a.nodeId c.nodeId a.nextSequenceNumber) hb hbufB hbc hvs hlen hrt
  have hC := deliver_frame codec c inC
    (Message.mk m.chatText a.nodeId c.nodeId a.nextSequenceNumber) hbufC rfl hvs hlen hrt
  refine ⟨⟨?_, hA⟩, ?_, ?_⟩
  · rw [hsend]; exact hem
  · rw [hA]; exact ⟨hB.1, hB.2.2.2.2.2.2⟩
  · rw [hA, hB.2.2.2.2.2.2]; exact hC

end NetworkManager

namespace NetworkManager

/-- Witness for C17: `Node1` sends to `Node3` through `Node2`. -/
theorem C17_three_node_ring_witness :
    (processReceivedData qtCodec node3Linked 7
      (output node2Linked (processReceivedData qtCodec node2Linked 7
        (output node1Linked (sendMessage qtCodec node1Linked (toNode3 5)))))).emitted =
      node3Linked.emitted ++
        [Signal.messageReceived
          (Message.mk (toNode3 5).chatText node1Linked.nodeId node3Linked.nodeId
            node1Linked.nextSequenceNumber)] :=
  (C17_three_node_ring qtCodec node1Linked node2Linked node3Linked 7 7 (toNode3 5)
    (by decide) (by decide) (by decide) (by decide) (by decide) (by decide) (by decide)
    (by decide) (by decide) (by decide) (by decide) (by decide)).2.2.1

theorem map_set_of_same {β : Type} (f : NetworkManager → β) :
    ∀ (ring : List NetworkManager) (pos : Nat) (old new : NetworkManager),
      ring[pos]? = some old → f new = f old → (ring.set pos new).map f = ring.map f := by
  intro ring
  induction ring with
  | nil => intro pos old new h _; simp at h
  | cons x xs ih =>
    intro pos old new h hf
    cases pos with
    | zero =>
      simp only [List.getElem?_cons_zero, Option.some.injEq] at h
      subst h
      simp [hf]
    | succ k =>
      simp only [List.getElem?_cons_succ] at h
      simp only [List.set_cons_succ, List.map_cons, ih k old new h hf]

/-- C20: no hop limit. In a ring where every node has its successor link
connected and no node has the destination of the valid message `m` as its
id, the frame of `m` given to any node makes hop after hop: after every
number of hops the bytes in transit are still the unchanged frame of `m`, on
their way to the next position in the ring, and no node has delivered
anything or queued anything. -/
theorem C20_no_hop_limit (c : Codec) (inbound : Nat) (m : Message)
    (hv : m.isValid = true) (hlen : (m.writeTo c).length < 4294967296)
    (hrt : Message.readFrom c (m.writeTo c) = m) :
    ∀ (hops : Nat) (ring : List NetworkManager) (pos : Nat),
      (∀ nm ∈ ring, nm.connected = true ∧ nm.bufferOf inbound = [] ∧
        nm.nodeId ≠ m.destination) →
      pos < ring.length →
        (ringHops c inbound hops ring pos (frame c m)).2.2 = frame c m ∧
        (ringHops c inbound hops ring pos (frame c m)).2.1 = (pos + hops) % ring.length ∧
        (ringHops c inbound hops ring pos (frame c m)).1.map (fun nm => nm.emitted) =
          ring.map (fun nm => nm.emitted) ∧
        (ringHops c inbound hops ring pos (frame c m)).1.map (fun nm => nm.messageQueue) =
          ring.map (fun nm => nm.messageQueue) := by
  intro hops
  induction hops with
  | zero =>
    intro ring pos _ hpos
    simp [ringHops, Nat.mod_eq_of_lt hpos]
  | succ h ih =>
    intro ring pos hall hpos
    obtain ⟨nm, hnm⟩ : ∃ nm, ring[pos]? = some nm :=
      ⟨ring[pos], List.getElem?_eq_getElem hpos⟩
    have hmem : nm ∈ ring := List.getElem?_mem hnm
    obtain ⟨hconn, hbuf, hid⟩ := hall nm hmem
    have hr := relay_frame c nm inbound m hconn hbuf hid hv hlen hrt
    have hhop : ringHop c inbound ring pos (frame c m) =
        (ring.set pos (processReceivedData c nm inbound (frame c m)), frame c m) := by
      simp only [ringHop, hnm, hr.2.2.2.2.2.2]
    have hall' : ∀ x ∈ ring.set pos (processReceivedData c nm inbound (frame c m)),
        x.connected = true ∧ x.bufferOf inbound = [] ∧ x.nodeId ≠ m.destination := by
      intro x hx
      rcases List.mem_or_eq_of_mem_set hx with hx | hx
      · exact hall x hx
      · subst hx
        exact ⟨hr.2.2.2.1, hr.2.2.2.2.1, by rw [hr.2.2.2.2.2.1]; exact hid⟩
    have hlen' : (ring.set pos (processReceivedData c nm inbound (frame c m))).length =
        ring.length := List.length_set _ _ _
    have hpos' : (pos + 1) % ring.length <
        (ring.set pos (processReceivedData c nm inbound (frame c m))).length := by
      rw [hlen']; exact Nat.mod_lt _ (by omega)
    have hrec := ih _ _ hall' hpos'
    simp only [ringHops, hhop]
    rw [hlen'] at hrec
    refine ⟨hrec.1, ?_, ?_, ?_⟩
    · rw [hrec.2.1, Nat.mod_add_mod]
      congr 1
      omega
    · rw [hrec.2.2.1]
      exact map_set_of_same (fun nm => nm.emitted) ring pos nm _ hnm hr.1
    · rw [hrec.2.2.2]
      exact map_set_of_same (fun nm => nm.messageQueue) ring pos nm _ hnm hr.2.2.1

/-- Witness for C20: a message for `Node9` in the ring `Node1`, `Node2`,
`Node3`, seven hops starting at `Node2`. -/
theorem C20_no_hop_limit_witness :
    (ringHops qtCodec 7 7 [node1Linked, node2Linked, node3Linked] 1
      (frame qtCodec toNowhere)).2.2 = frame qtCodec toNowhere ∧
    (ringHops qtCodec 7 7 [node1Linked, node2Linked, node3Linked] 1
      (frame qtCodec toNowhere)).2.1 = (1 + 7) % [node1Linked, node2Linked, node3Linked].length :=
  have h := C20_no_hop_limit qtCodec 7 toNowhere (by decide) (by decide) (by decide) 7
    [node1Linked, node2Linked, node3Linked] 1 (by decide) (by decide)
  ⟨h.1, h.2.1⟩

end NetworkManager

/-! ### The reordering state is not used -/

namespace NetworkManager

theorem forwardMessage_withReorder (c : Codec) (nm : NetworkManager) (m : Message)
    (p : QMap QString (QMap Int Message)) (q : QMap QString Int) :
    forwardMessage c (nm.withReorderState p q) m =
      (forwardMessage c nm m).withReorderState p q := by
  simp only [forwardMessage, withReorderState]
  cases nm.neighborSocket with
  | none => rfl
  | some socket => simp only []; split_ifs <;> rfl

theorem route_withReorder (c : Codec) (nm : NetworkManager) (m : Message)
    (p : QMap QString (QMap Int Message)) (q : QMap QString Int) :
    route c (nm.withReorderState p q) m = (route c nm m).withReorderState p q := by
  unfold route
  split_ifs with hv hd hd2 hd2
  · rfl
  · exact absurd hd hd2
  · exact absurd hd2 hd
  · exact forwardMessage_withReorder c nm m p q
  · rfl

theorem processLoop_withReorder (c : Codec) (p : QMap QString (QMap Int Message))
    (q : QMap QString Int) :
    ∀ (fuel : Nat) (nm : NetworkManager) (buffer : QByteArray),
      processLoop c fuel (nm.withReorderState p q) buffer =
        ((processLoop c fuel nm buffer).1.withReorderState p q,
          (processLoop c fuel nm buffer).2) := by
  intro fuel
  induction fuel with
  | zero => intro nm buffer; rfl
  | succ n ih =>
    intro nm buffer
    rw [processLoop_step, processLoop_step]
    split_ifs
    · rfl
    · rw [route_withReorder, ih]
    · rfl

theorem processReceivedData_withReorder (c : Codec) (nm : NetworkManager) (socket : Nat)
    (data : QByteArray) (p : QMap QString (QMap Int Message)) (q : QMap QString Int) :
    processReceivedData c (nm.withReorderState p q) socket data =
      (processReceivedData c nm socket data).withReorderState p q := by
  have hb : (nm.withReorderState p q).socketBuffers = nm.socketBuffers := rfl
  simp only [processReceivedData, hb, processLoop_withReorder]
  rfl

theorem sendMessage_withReorder (c : Codec) (nm : NetworkManager) (m : Message)
    (p : QMap QString (QMap Int Message)) (q : QMap QString Int) :
    sendMessage c (nm.withReorderState p q) m = (sendMessage c nm m).withReorderState p q := by
  by_cases hv : m.isValid = true
  · by_cases hd : m.destination = nm.nodeId
    · have hd2 : m.destination = (nm.withReorderState p q).nodeId := hd
      simp [sendMessage, hv, hd, Message.setSequenceNumber, deliverMessage, withReorderState]
    · have hd2 : ¬ m.destination = (nm.withReorderState p q).nodeId := hd
      have h1 : sendMessage c nm m =
          forwardMessage c
            { nm with nextSequenceNumber := wrapInt32 (nm.nextSequenceNumber + 1) }
            (m.setSequenceNumber nm.nextSequenceNumber) := by
        simp [sendMessage, hv, hd, Message.setSequenceNumber]
      have h2 : sendMessage c (nm.withReorderState p q) m =
          forwardMessage c
            ({ nm with nextSequenceNumber :=
                wrapInt32 (nm.nextSequenceNumber + 1) }.withReorderState p q)
            (m.setSequenceNumber nm.nextSequenceNumber) := by
        simp [sendMessage, hv, hd, Message.setSequenceNumber, withReorderState]
      rw [h1, h2, forwardMessage_withReorder]
  · simp [sendMessage, hv]

theorem onNewConnection_withReorder (clients : List Nat)
    (p : QMap QString (QMap Int Message)) (q : QMap QString Int) :
    ∀ nm : NetworkManager,
      onNewConnection (nm.withReorderState p q) clients =
        (onNewConnection nm clients).withReorderState p q := by
  induction clients with
  | nil => intro nm; rfl
  | cons x xs ih =>
    intro nm
    simp only [onNewConnection, List.foldl_cons] at ih ⊢
    exact ih { nm with socketBuffers := QMap.insert nm.socketBuffers x [] }

theorem socketClosed_withReorder (nm : NetworkManager) (socket : Nat)
    (p : QMap QString (QMap Int Message)) (q : QMap QString Int) :
    socketClosed (nm.withReorderState p q) socket =
      (socketClosed nm socket).withReorderState p q := by
  rcases nm with ⟨_ | s⟩
  · rfl
  · simp only [socketClosed, withReorderState]
    split_ifs <;> rfl

theorem onDisconnected_withReorder (nm : NetworkManager) (socket : Nat)
    (p : QMap QString (QMap Int Message)) (q : QMap QString Int) :
    onDisconnected (nm.withReorderState p q) socket =
      (onDisconnected nm socket).withReorderState p q := by
  simp only [onDisconnected, withReorderState]
  split_ifs <;> rfl

theorem onConnectionError_withReorder (nm : NetworkManager) (socket : Nat)
    (p : QMap QString (QMap Int Message)) (q : QMap QString Int) :
    onConnectionError (nm.withReorderState p q) socket =
      (onConnectionError nm socket).withReorderState p q := by
  simp only [onConnectionError, withReorderState]
  split_ifs <;> rfl

theorem step_withReorder (c : Codec) (nm : NetworkManager) (e : Event)
    (p : QMap QString (QMap Int Message)) (q : QMap QString Int) :
    step c (nm.withReorderState p q) e = (step c nm e).withReorderState p q := by
  cases e with
  | startServer port listening =>
    simp only [step, startServer, withReorderState]
    split_ifs <;> rfl
  | setNodeId nodeId => rfl
  | addPeer peerId port => rfl
  | setRingTopology ports currentPort =>
    simp only [step, setRingTopology, withReorderState]
    split_ifs <;> rfl
  | connectToNeighbor host port ptr => rfl
  | sendMessage message => exact sendMessage_withReorder c nm message p q
  | newConnection clients => exact onNewConnection_withReorder clients p q nm
  | readyRead socket data => exact processReceivedData_withReorder c nm socket data p q
  | connected =>
    rcases nm with ⟨_ | s⟩ <;> rfl
  | disconnected socket =>
    simp only [step, socketClosed_withReorder, onDisconnected_withReorder]
  | errorOccurred socket =>
    simp only [step, socketClosed_withReorder, onConnectionError_withReorder]
  | retryTimeout ptr =>
    rcases nm with ⟨_, _, _ | t⟩
    · rfl
    · simp only [step, retryTimeout, retryConnection, connectToNeighbor, withReorderState]
      split_ifs <;> rfl
  | singleShotTimeout index ptr =>
    cases h : nm.singleShots[index]? with
    | none => simp only [step, singleShotTimeout, withReorderState, h]
    | some request =>
      simp only [step, singleShotTimeout, connectToNeighbor, withReorderState, h]

theorem foldl_deliver_frames (c : Codec) (socket : Nat) :
    ∀ (ms : List Message) (nm : NetworkManager), nm.bufferOf socket = [] →
      (∀ m ∈ ms, m.isValid = true ∧ m.destination = nm.nodeId ∧
        (m.writeTo c).length < 4294967296 ∧ Message.readFrom c (m.writeTo c) = m) →
        (ms.foldl (fun st m => processReceivedData c st socket (frame c m)) nm).emitted =
          nm.emitted ++ ms.map Signal.messageReceived := by
  intro ms
  induction ms with
  | nil => intro nm _ _; simp
  | cons m ms ih =>
    intro nm hbuf h
    obtain ⟨hv, hd, hlen, hrt⟩ := h m (List.mem_cons_self _ _)
    have hone := processReceivedData_one c nm socket m hbuf hv hlen hrt
    have hdel := deliver_frame c nm socket m hbuf hd hv hlen hrt
    have hid : (processReceivedData c nm socket (frame c m)).nodeId = nm.nodeId := by
      rw [hone]; exact route_nodeId c nm m
    have hbuf1 : (processReceivedData c nm socket (frame c m)).bufferOf socket = [] := by
      rw [hone]; simp [bufferOf, QMap.value_insert_self]
    simp only [List.foldl_cons, List.map_cons]
    rw [ih _ hbuf1 (fun x hx => by
      rw [hid]; exact h x (List.mem_cons_of_mem _ hx)), hdel.1]
    simp

/-- C19: no gap-buffering. For valid messages `ms` addressed to the local
node, with any sequence numbers at all (out of order, repeated, starting
above 1): read in one piece, or one frame per read, `processReceivedData`
emits `messageReceived` once per frame, in arrival order; and each single
frame is delivered by the very call that reads it. The two maps of the
"Sequence ordering mechanism" are never read, the result of every event
being the same whatever they hold, and never written, every event leaving
them as they were. -/
theorem C19_no_gap_buffering (c : Codec) (nm : NetworkManager) (socket : Nat)
    (ms : List Message) (hbuf : nm.bufferOf socket = [])
    (hms : ∀ m ∈ ms, m.isValid = true ∧ m.destination = nm.nodeId ∧
      (m.writeTo c).length < 4294967296 ∧ Message.readFrom c (m.writeTo c) = m) :
    (processReceivedData c nm socket (ms.flatMap (frame c))).emitted =
      nm.emitted ++ ms.map Signal.messageReceived ∧
    (ms.foldl (fun st m => processReceivedData c st socket (frame c m)) nm).emitted =
      nm.emitted ++ ms.map Signal.messageReceived ∧
    (∀ m ∈ ms, (processReceivedData c nm socket (frame c m)).emitted =
      nm.emitted ++ [Signal.messageReceived m]) ∧
    (∀ (e : Event) (st : NetworkManager) (p : QMap QString (QMap Int Message))
      (q : QMap QString Int),
      step c (st.withReorderState p q) e = (step c st e).withReorderState p q) ∧
    (∀ (e : Event) (st : NetworkManager),
      (step c st e).pendingMessages = st.pendingMessages ∧
      (step c st e).expectedSequenceNumbers = st.expectedSequenceNumbers) := by
  refine ⟨?_, foldl_deliver_frames c socket ms nm hbuf hms, ?_,
    fun e st p q => step_withReorder c st e p q, ?_⟩
  · rw [processReceivedData_frames c nm socket ms hbuf (fun m hm => (hms m hm).2.2)]
    simp only []
    rw [foldl_route_emitted]
    congr 2
    apply List.filter_eq_self.2
    intro m hm
    simp [(hms m hm).1, (hms m hm).2.1]
  · intro m hm
    obtain ⟨hv, hd, hlen, hrt⟩ := hms m hm
    exact (deliver_frame c nm socket m hbuf hd hv hlen hrt).1
  · intro e st
    have h := step_withReorder c st e st.pendingMessages st.expectedSequenceNumbers
    have hself : st.withReorderState st.pendingMessages st.expectedSequenceNumbers = st := rfl
    rw [hself] at h
    constructor
    · conv_lhs => rw [h]
      rfl
    · conv_lhs => rw [h]
      rfl

/-- Witness for C19: frames numbered 3, 3 and 1 for `Node2`. -/
theorem C19_no_gap_buffering_witness :
    (processReceivedData qtCodec node2 7
      ([toNode2 3, toNode2 3, toNode2 1].flatMap (frame qtCodec))).emitted =
      node2.emitted ++ [toNode2 3, toNode2 3, toNode2 1].map Signal.messageReceived :=
  (C19_no_gap_buffering qtCodec node2 7 [toNode2 3, toNode2 3, toNode2 1]
    (by decide) (by decide)).1

end NetworkManager

end RingChat
